import Mathlib

/-!
Verification development for the Balancer v3 Arbitrum pool tag module
(`src/main.mts`).  The TypeScript source is shallowly embedded below:
pure helpers become Lean functions, the `returnTags` fetch loop becomes a
recursion over an oracle list of HTTP outcomes (one entry per `fetchData`
call), and JavaScript number semantics are idealised over `ℚ` (exact
rational arithmetic in place of IEEE-754 doubles; all string renderings
follow the ECMAScript algorithms on that idealisation).
-/

/-! ### JavaScript string/number primitives -/

/-- ECMAScript WhiteSpace ∪ LineTerminator, as used by `String.prototype.trim`
and `StringToNumber`. -/
def isJsWhitespace (c : Char) : Bool :=
  c.toNat = 0x09 || c.toNat = 0x0A || c.toNat = 0x0B || c.toNat = 0x0C ||
  c.toNat = 0x0D || c.toNat = 0x20 || c.toNat = 0xA0 || c.toNat = 0x1680 ||
  (0x2000 ≤ c.toNat && c.toNat ≤ 0x200A) ||
  c.toNat = 0x2028 || c.toNat = 0x2029 || c.toNat = 0x202F || c.toNat = 0x205F ||
  c.toNat = 0x3000 || c.toNat = 0xFEFF

/-- `String.prototype.trim`. -/
def jsTrim (s : String) : String :=
  String.mk (((s.data.dropWhile isJsWhitespace).reverse.dropWhile isJsWhitespace).reverse)

/-- A JavaScript number, idealised: `NaN`, the two infinities, or an exact
rational standing in for a finite double. -/
inductive JSNum where
  | nan
  | posInf
  | negInf
  | fin (q : ℚ)
deriving DecidableEq

/-- `Number.isInteger`. -/
def JSNum.isInteger : JSNum → Bool
  | .fin q => q.den = 1
  | _ => false

def decDigitVal (c : Char) : Option ℕ :=
  if '0' ≤ c ∧ c ≤ '9' then some (c.toNat - 48) else none

def radixDigitVal (radix : ℕ) (c : Char) : Option ℕ :=
  if '0' ≤ c ∧ c ≤ '9' ∧ c.toNat - 48 < radix then some (c.toNat - 48)
  else if 'a' ≤ c ∧ c ≤ 'f' ∧ c.toNat - 87 < radix then some (c.toNat - 87)
  else if 'A' ≤ c ∧ c ≤ 'F' ∧ c.toNat - 55 < radix then some (c.toNat - 55)
  else none

def radixAccum (radix : ℕ) : ℕ → List Char → Option ℕ
  | acc, [] => some acc
  | acc, c :: cs =>
    match radixDigitVal radix c with
    | some d => radixAccum radix (acc * radix + d) cs
    | none => none

/-- Parse the digits of a `0x`/`0o`/`0b` literal (NaN when empty or invalid). -/
def parseRadix (radix : ℕ) (l : List Char) : JSNum :=
  match l with
  | [] => .nan
  | _ =>
    match radixAccum radix 0 l with
    | some v => .fin (v : ℚ)
    | none => .nan

def digitsToNat : List Char → ℕ :=
  List.foldl (fun acc c => acc * 10 + (c.toNat - 48)) 0

/-- Parse an optional ExponentPart occupying the whole remainder. -/
def parseExpPart : List Char → Option ℤ
  | [] => some 0
  | c :: rest =>
    if c = 'e' ∨ c = 'E' then
      match rest with
      | '+' :: ds => if ds ≠ [] ∧ ds.all Char.isDigit then some (digitsToNat ds : ℤ) else none
      | '-' :: ds => if ds ≠ [] ∧ ds.all Char.isDigit then some (-(digitsToNat ds : ℤ)) else none
      | ds => if ds ≠ [] ∧ ds.all Char.isDigit then some (digitsToNat ds : ℤ) else none
    else none

/-- StrDecimalLiteral (without sign): `digits [. digits] [exp]` or `. digits [exp]`. -/
def parseDecimalLit (l : List Char) : Option ℚ :=
  let ip := l.takeWhile Char.isDigit
  let r1 := l.dropWhile Char.isDigit
  match r1 with
  | '.' :: r2 =>
    let fp := r2.takeWhile Char.isDigit
    let r3 := r2.dropWhile Char.isDigit
    if ip = [] ∧ fp = [] then none
    else
      (parseExpPart r3).map (fun e =>
        ((digitsToNat ip : ℚ) + (digitsToNat fp : ℚ) / (10 : ℚ) ^ fp.length) * (10 : ℚ) ^ e)
  | _ =>
    if ip = [] then none
    else (parseExpPart r1).map (fun e => (digitsToNat ip : ℚ) * (10 : ℚ) ^ e)

def jsNegate : JSNum → JSNum
  | .nan => .nan
  | .posInf => .negInf
  | .negInf => .posInf
  | .fin q => .fin (-q)

def parseUnsignedDec (l : List Char) : JSNum :=
  if l = "Infinity".data then .posInf
  else
    match parseDecimalLit l with
    | some q => .fin q
    | none => .nan

def parseSignedDec : List Char → JSNum
  | '+' :: rest => parseUnsignedDec rest
  | '-' :: rest => jsNegate (parseUnsignedDec rest)
  | l => parseUnsignedDec l

/-- ECMAScript `StringToNumber` (i.e. `Number(string)`), idealised over `ℚ`. -/
def jsStringToNumber (s : String) : JSNum :=
  let t := ((s.data.dropWhile isJsWhitespace).reverse.dropWhile isJsWhitespace).reverse
  match t with
  | [] => .fin 0
  | '0' :: c :: rest =>
    if c = 'x' ∨ c = 'X' then parseRadix 16 rest
    else if c = 'o' ∨ c = 'O' then parseRadix 8 rest
    else if c = 'b' ∨ c = 'B' then parseRadix 2 rest
    else parseSignedDec t
  | _ => parseSignedDec t

/-- `Math.round`: floor(x + 1/2). -/
def mathRound (q : ℚ) : ℤ := ⌊q + 1 / 2⌋

/-- `Math.abs` (kernel-reducible absolute value). -/
def mathAbs (q : ℚ) : ℚ := if q < 0 then -q else q

/-- Truncation toward zero (the value of `x % 1` is `x - jsTrunc x`). -/
def jsTrunc (q : ℚ) : ℤ := if 0 ≤ q then ⌊q⌋ else ⌈q⌉

/-! ### Rendering a number back to a string (`Number.prototype.toString` etc.) -/

/-- Decimal digits of the fractional part `f ∈ [0,1)`, stopping at zero
(hence no trailing zeros); `fuel` bounds the digit count and is chosen large
enough for every terminating expansion that the module can produce. -/
def fracDigits : ℚ → ℕ → List Char
  | _, 0 => []
  | f, fuel + 1 =>
    if f = 0 then []
    else
      let d := (⌊f * 10⌋).toNat
      Char.ofNat (48 + d) :: fracDigits (f * 10 - (d : ℚ)) fuel

/-- Largest `k` with `10 ^ k ≤ a`, for `a ≥ 1` (fueled). -/
def ratLog10Pos : ℚ → ℕ → ℕ
  | _, 0 => 0
  | a, fuel + 1 => if a < 10 then 0 else ratLog10Pos (a / 10) fuel + 1

/-- Smallest `k ≥ 1` with `a * 10 ^ k ≥ 1`, for `0 < a < 1` (fueled). -/
def ratLog10Neg : ℚ → ℕ → ℕ
  | _, 0 => 0
  | a, fuel + 1 => if 1 ≤ a * 10 then 1 else ratLog10Neg (a * 10) fuel + 1

def fracFuel (den : ℕ) : ℕ := 4 * (toString den).length + 4

/-- Fixed-point decimal rendering of `a > 0` without trailing zeros. -/
def fixedDec (a : ℚ) : String :=
  let ip := (⌊a⌋).toNat
  let ds := fracDigits (a - (⌊a⌋ : ℚ)) (fracFuel a.den)
  toString ip ++ (if ds = [] then "" else "." ++ String.mk ds)

/-- Significand rendering `d[.ddd]` for `s ∈ [1,10)`, trailing zeros stripped. -/
def expDigits (s : ℚ) : String :=
  let d := (⌊s⌋).toNat
  let ds := fracDigits (s - (⌊s⌋ : ℚ)) (fracFuel s.den)
  toString d ++ (if ds = [] then "" else "." ++ String.mk ds)

/-- Exponential rendering for `a ≥ 10 ^ 21`. -/
def expFormBig (a : ℚ) : String :=
  let k := ratLog10Pos a ((toString a.num.natAbs).length + 1)
  expDigits (a / (10 : ℚ) ^ k) ++ "e+" ++ toString k

/-- Exponential rendering for `0 < a < 10 ^ (-6)`. -/
def expFormSmall (a : ℚ) : String :=
  let k := ratLog10Neg a (fracFuel a.den)
  expDigits (a * (10 : ℚ) ^ k) ++ "e-" ++ toString k

/-- `Number.prototype.toString` (base 10) on the rational idealisation:
shortest exact decimal form, switching to exponential notation below
`10 ^ (-6)` and from `10 ^ 21` upward, exactly as ECMAScript does. -/
def jsRatToString (q : ℚ) : String :=
  if q = 0 then "0"
  else
    let sign := if q < 0 then "-" else ""
    let a := mathAbs q
    if (10 : ℚ) ^ (21 : ℕ) ≤ a then sign ++ expFormBig a
    else if a < 1 / 1000000 then sign ++ expFormSmall a
    else sign ++ fixedDec a

def jsNumToString : JSNum → String
  | .nan => "NaN"
  | .posInf => "Infinity"
  | .negInf => "-Infinity"
  | .fin q => jsRatToString q

/-! ### `toPrecision(4)` / `toFixed(4)` and the trailing-zero strips -/

/-- `Number.prototype.toPrecision(4)` on the rational idealisation
(ECMAScript: sign split off, significand rounded to 4 digits half-up,
exponential notation when the decimal exponent is below -7+1 or at least 4). -/
def toPrecision4 (q : ℚ) : String :=
  if q = 0 then "0.000"
  else
    let sign := if q < 0 then "-" else ""
    let a := mathAbs q
    let e0 : ℤ :=
      if 1 ≤ a then (ratLog10Pos a ((toString a.num.natAbs).length + 1) : ℤ)
      else -(ratLog10Neg a (fracFuel a.den) : ℤ)
    let n0 := mathRound (a / (10 : ℚ) ^ (e0 - 3))
    let n := if n0 = 10000 then (1000 : ℤ) else n0
    let e := if n0 = 10000 then e0 + 1 else e0
    let ds := (toString n.toNat).data
    if e < -6 ∨ 4 ≤ e then
      sign ++ String.mk (ds.take 1) ++ "." ++ String.mk (ds.drop 1) ++ "e" ++
        (if 0 ≤ e then "+" ++ toString e.toNat else "-" ++ toString (-e).toNat)
    else if 0 ≤ e then
      sign ++ (if e = 3 then String.mk ds
        else String.mk (ds.take (e.toNat + 1)) ++ "." ++ String.mk (ds.drop (e.toNat + 1)))
    else
      sign ++ "0." ++ String.mk (List.replicate (-e - 1).toNat '0') ++ String.mk ds

def padTo4 (m : ℕ) : String :=
  let s := toString m
  String.mk (List.replicate (4 - s.length) '0') ++ s

/-- `Number.prototype.toFixed(4)` on the rational idealisation
(sign split off, value rounded half-up at the fourth decimal). -/
def toFixed4 (q : ℚ) : String :=
  let sign := if q < 0 then "-" else ""
  let a := mathAbs q
  let n := (mathRound (a * 10000)).toNat
  sign ++ toString (n / 10000) ++ "." ++ padTo4 (n % 10000)

/-- `.replace(/\.0+$/, "")`: drop a suffix consisting of a dot followed by
only zeros. -/
def stripDotZerosSuffix (s : String) : String :=
  let r := s.data.reverse
  let rest := r.dropWhile (fun c => c = '0')
  if rest.length < r.length ∧ rest.head? = some '.' then
    String.mk ((rest.drop 1).reverse)
  else s

/-- `.replace(/(\.\d*?)0+$/, "$1")`: drop trailing zeros that follow a dot
and digits (the dot itself is kept). -/
def stripTrailingZerosAfterDot (s : String) : String :=
  let r := s.data.reverse
  let rest := r.dropWhile (fun c => c = '0')
  if rest.length < r.length ∧ (rest.dropWhile Char.isDigit).head? = some '.' then
    String.mk rest.reverse
  else s

def isZeroChar (c : Char) : Bool := c = '0'

/-- The fractional digits of a finite decimal with its trailing zeros removed
(spec wording: "trailing zero fractional digits stripped"). -/
def dropTrailingZeros (l : List Char) : List Char :=
  (l.reverse.dropWhile isZeroChar).reverse

/-! ### Spec-side renderings (for the refinement comparison in C8) -/

/-- Spec side, §4.3.1: strip the trailing zeros, then a trailing decimal
point, from a significand. -/
def stripSpecAux (l : List Char) : List Char :=
  let m := dropTrailingZeros l
  if m.getLast? = some '.' then m.dropLast else m

/-- Spec side, §4.3.1 (`|v| < 1` branch): "render using 4 significant digits,
with trailing zeros and a trailing decimal point removed" — the strip applied
to the significand (the part before the exponent marker, if any). -/
def specSigStrip (s : String) : String :=
  String.mk (stripSpecAux (s.data.takeWhile (fun c => c ≠ 'e')) ++
    s.data.dropWhile (fun c => c ≠ 'e'))

/-- Spec side, §4.3.1 (`1 ≤ |v| < 1000` branch): "render with up to 4
fractional digits when the value is non-integral, else as an integer, with
trailing zero fractional digits stripped". -/
def specUpTo4 (q : ℚ) : String :=
  let sign := if q < 0 then "-" else ""
  let N := (mathRound (mathAbs q * 10000)).toNat
  if q.den = 1 then sign ++ toString q.num.natAbs
  else
    sign ++ toString (N / 10000) ++
      (if N % 10000 = 0 then ""
       else "." ++ String.mk (dropTrailingZeros (padTo4 (N % 10000)).data))

/-- `abbreviateNumberString` from `src/main.mts` (lines 161-178). -/
def abbreviateNumberString (input : String) : String :=
  match jsStringToNumber input with
  | .nan => input
  | .posInf => input
  | .negInf => input
  | .fin n =>
    let abs := mathAbs n
    if 1000000 ≤ abs then
      jsRatToString ((mathRound (n / 1000000) : ℤ) : ℚ) ++ "M"
    else if 1000 ≤ abs then
      jsRatToString ((mathRound (n / 1000) : ℤ) : ℚ) ++ "k"
    else if abs < 1 then
      jsNumToString (jsStringToNumber (toPrecision4 n))
    else
      let fixed := if 0 < mathAbs (n - (jsTrunc n : ℚ)) then toFixed4 n else jsRatToString n
      stripTrailingZerosAfterDot (stripDotZerosSuffix fixed)

/-! ### Text helpers of the formatter -/

/-- `truncateString` (lines 146-151): cap at `maxLength` characters, replacing
the tail by `"..."` when over the cap. -/
def truncateString (text : String) (maxLength : ℕ) : String :=
  if maxLength < text.length then
    String.mk (text.data.take (maxLength - 3)) ++ "..."
  else text

def camelSpacedAux : List Char → List Char
  | [] => []
  | [c] => [c]
  | a :: b :: rest =>
    if (('a' ≤ a ∧ a ≤ 'z') ∨ ('0' ≤ a ∧ a ≤ '9')) ∧ ('A' ≤ b ∧ b ≤ 'Z') then
      a :: ' ' :: camelSpacedAux (b :: rest)
    else a :: camelSpacedAux (b :: rest)

/-- `camelCaseToSpaced` (lines 89-92): `replace(/([a-z0-9])([A-Z])/g, "$1 $2")`. -/
def camelCaseToSpaced (input : String) : String :=
  String.mk (camelSpacedAux input.data)

def containsHtmlAux : List Char → Bool
  | [] => false
  | '<' :: rest =>
    (match rest with
     | c :: cs => (c != '>') && cs.contains '>'
     | [] => false) || containsHtmlAux rest
  | _ :: rest => containsHtmlAux rest

/-- `containsHtmlOrMarkdown` (lines 152-158): `/<[^>]+>/.test(text)` — an angle
bracket pair with a non-empty `>`-free interior. -/
def containsHtmlOrMarkdown (text : String) : Bool :=
  containsHtmlAux text.data

/-! ### Data model (`Pool`, `ContractTag`, GraphQL response shapes) -/

structure FactoryInfo where
  type : String
  /-- `version : number` in the source; `none` models a missing/non-number
  runtime value (the code guards with `typeof ... === "number"`). -/
  version : Option Int
deriving DecidableEq

structure StableParamsInfo where
  amp : String
deriving DecidableEq

structure WeightedParamsInfo where
  weights : List String
deriving DecidableEq

structure Gyro2ParamsInfo where
  sqrtAlpha : String
  sqrtBeta : String
deriving DecidableEq

structure GyroEParamsInfo where
  alpha : String
  beta : String
deriving DecidableEq

structure LBPParamsInfo where
  owner : String
  projectToken : String
  reserveToken : String
deriving DecidableEq

structure QuantAMMWeightedParamsInfo where
  epsilonMax : String
  maxTradeSizeRatio : String
deriving DecidableEq

structure ReClammParamsInfo where
  lastTimestamp : String
deriving DecidableEq

/-- One raw record.  A runtime-absent `factory` is modelled by
`factory.type = ""` (the code reads `pool.factory?.type ?? ""`). -/
structure Pool where
  id : String
  address : String
  factory : FactoryInfo
  stableParams : Option StableParamsInfo := none
  weightedParams : Option WeightedParamsInfo := none
  gyro2Params : Option Gyro2ParamsInfo := none
  gyroEParams : Option GyroEParamsInfo := none
  lbpParams : Option LBPParamsInfo := none
  quantAMMWeightedParams : Option QuantAMMWeightedParamsInfo := none
  reClammParams : Option ReClammParamsInfo := none
deriving DecidableEq

/-- The produced tag record (field names flattened from the JS object keys
"Contract Address", "Public Name Tag", "Project Name", "UI/Website Link",
"Public Note"). -/
structure ContractTag where
  contractAddress : String
  publicNameTag : String
  projectName : String
  uiWebsiteLink : String
  publicNote : String
deriving DecidableEq

/-! ### The formatter (`buildParamsSnippet`, `transformPoolsToTags`) -/

/-- `buildParamsSnippet` (lines 181-223).  String truthiness in the source
(`amp ? ... : ""`) is nonemptiness here. -/
def buildParamsSnippet (pool : Pool) : String :=
  if pool.factory.type = "Stable" then
    match pool.stableParams with
    | some p => if p.amp ≠ "" then "amp=" ++ abbreviateNumberString p.amp else ""
    | none => ""
  else if pool.factory.type = "Weighted" then
    match pool.weightedParams with
    | some p => "weights=" ++ toString p.weights.length
    | none => ""
  else if pool.factory.type = "Gyro2" then
    match pool.gyro2Params with
    | some p =>
      if p.sqrtAlpha ≠ "" ∧ p.sqrtBeta ≠ "" then
        "sA=" ++ abbreviateNumberString p.sqrtAlpha ++ ", sB=" ++
          abbreviateNumberString p.sqrtBeta
      else ""
    | none => ""
  else if pool.factory.type = "GyroE" then
    match pool.gyroEParams with
    | some p =>
      if p.alpha ≠ "" ∧ p.beta ≠ "" then
        "a=" ++ abbreviateNumberString p.alpha ++ ", b=" ++
          abbreviateNumberString p.beta
      else ""
    | none => ""
  else if pool.factory.type = "QuantAMMWeighted" then
    match pool.quantAMMWeightedParams with
    | some p =>
      if p.epsilonMax ≠ "" ∧ p.maxTradeSizeRatio ≠ "" then
        "eMax=" ++ abbreviateNumberString p.epsilonMax ++ ", mTSR=" ++
          abbreviateNumberString p.maxTradeSizeRatio
      else ""
    | none => ""
  else if pool.factory.type = "LBP" then ""
  else if pool.factory.type = "ReClamm" then
    match pool.reClammParams with
    | some p =>
      if p.lastTimestamp ≠ "" then "ts=" ++ abbreviateNumberString p.lastTimestamp
      else ""
    | none => ""
  else ""

/-- The per-record mapping inside `transformPoolsToTags` (lines 246-268). -/
def formatPool (chainId : String) (pool : Pool) : ContractTag :=
  let typeText := camelCaseToSpaced pool.factory.type
  let paramsSnippet := buildParamsSnippet pool
  let versionText :=
    match pool.factory.version with
    | some v => " v" ++ jsRatToString (v : ℚ)
    | none => ""
  let baseName := typeText ++ " Pool" ++ versionText
  let nameTag := truncateString baseName 50
  let paramsNote :=
    if paramsSnippet ≠ "" ∧ (jsTrim paramsSnippet).length ≠ 0 then
      " Params: " ++ paramsSnippet ++ "."
    else ""
  let publicNote := "A Balancer v3 \x27" ++ typeText ++ "\x27 pool." ++ paramsNote
  { contractAddress := "eip155:" ++ chainId ++ ":" ++ pool.address
    publicNameTag := nameTag
    projectName := "Balancer v3"
    uiWebsiteLink := "https://balancer.fi"
    publicNote := publicNote }

/-- The validity test of `transformPoolsToTags` (line 231):
`containsHtmlOrMarkdown(typeText) || !typeText`. -/
def poolTypeInvalidB (pool : Pool) : Bool :=
  containsHtmlOrMarkdown pool.factory.type || pool.factory.type == ""

/-- The `forEach`/push pass of `transformPoolsToTags` (lines 229-244). -/
def validPoolsOf : List Pool → List Pool
  | [] => []
  | p :: ps => if poolTypeInvalidB p then validPoolsOf ps else p :: validPoolsOf ps

/-- `transformPoolsToTags` (lines 226-269). -/
def transformPoolsToTags (chainId : String) (pools : List Pool) : List ContractTag :=
  (validPoolsOf pools).map (formatPool chainId)

/-! ### `fetchData` and the pagination loop (`TagService.returnTags`) -/

structure GraphQLDataShape where
  /-- `none` models a response whose `data` object lacks the `pools` field. -/
  pools : Option (List Pool)
deriving DecidableEq

structure GraphQLResponseShape where
  data : Option GraphQLDataShape
  errors : Option (List String)
deriving DecidableEq

/-- One observable outcome of the HTTP transport for a single page request. -/
inductive HttpOutcome where
  | timeout
  | netError (message : String)
  | response (ok : Bool) (status : ℕ) (body : GraphQLResponseShape)
deriving DecidableEq

/-- `fetchData` (lines 94-135): transport failures, non-success status,
upstream error lists and an absent data container all throw; otherwise the
pool list is returned (an empty `errors` array is still truthy in JS, hence
`some []` also fails). -/
def fetchData : HttpOutcome → Except String (List Pool)
  | .timeout => .error "Request timed out while querying the subgraph."
  | .netError m => .error m
  | .response ok status body =>
    if !ok then .error ("HTTP error: " ++ toString status)
    else
      match body.errors with
      | some _ => .error "GraphQL errors occurred: see logs for details."
      | none =>
        match body.data with
        | none => .error "No pools data found."
        | some d =>
          match d.pools with
          | none => .error "No pools data found."
          | some pools => .ok pools

/-- An outcome whose `fetchData` succeeds with exactly `pools`. -/
def okOutcome (pools : List Pool) : HttpOutcome :=
  .response true 200 { data := some { pools := some pools }, errors := none }

/-- `pools[pools.length - 1].id` (line 320); `""` when the batch is empty
(unreachable there, since the batch has 1000 records). -/
def lastIdOf (pools : List Pool) : String :=
  (pools.getLast?.map Pool.id).getD ""

/-- The dedup filter with its mutated seen-set (lines 307-314): keep a record
iff its id is unseen, adding kept ids to the seen-set as the filter runs. -/
def dedupFilter : List String → List Pool → List Pool × List String
  | seen, [] => ([], seen)
  | seen, p :: ps =>
    if p.id ∈ seen then dedupFilter seen ps
    else
      let r := dedupFilter (p.id :: seen) ps
      (p :: r.1, r.2)

/-- Mutable state of one `returnTags` run (`lastId`, `prevLastId`,
`seenPoolIds`, `allTags`), plus a count of issued fetches. -/
structure LoopState where
  lastId : String
  prevLastId : String
  seen : List String
  allTags : List ContractTag
  fetches : ℕ
deriving DecidableEq

/-- The stall error as rethrown by the catch block (`Failed fetching data:
${error}` around the `Error` of lines 322-325). -/
def stallMessage : String :=
  "Failed fetching data: Error: Pagination cursor did not advance; aborting to prevent an infinite loop."

/-- The `while (isMore)` loop of `returnTags` (lines 304-339), driven by an
oracle list giving the outcome of each successive `fetchData` call.  `none`
means the oracle was exhausted while the loop still wanted more pages.  Any
caught error is rethrown wrapped as `Failed fetching data: Error: <msg>`. -/
def runLoop (chainId : String) : List HttpOutcome → LoopState → Option (Except String (List ContractTag) × ℕ)
  | [], _ => none
  | o :: rest, st =>
    match fetchData o with
    | .error e => some (.error ("Failed fetching data: Error: " ++ e), st.fetches + 1)
    | .ok pools =>
      let d := dedupFilter st.seen pools
      let pageTags := transformPoolsToTags chainId d.1
      let allTags := st.allTags ++ pageTags
      if pools.length = 1000 then
        let nextLastId := lastIdOf pools
        if nextLastId = "" ∨ nextLastId = st.lastId ∨ nextLastId = st.prevLastId then
          some (.error stallMessage, st.fetches + 1)
        else
          runLoop chainId rest
            { lastId := nextLastId, prevLastId := st.lastId, seen := d.2,
              allTags := allTags, fetches := st.fetches + 1 }
      else some (.ok allTags, st.fetches + 1)

/-- Initial loop state (lines 291-298): cursor at the lowest Bytes value. -/
def initialState : LoopState :=
  { lastId := "0x0000000000000000000000000000000000000000", prevLastId := "",
    seen := [], allTags := [], fetches := 0 }

/-- `TagService.returnTags` (lines 274-341).  Validation happens before any
fetch; on success the effective chain id is `String(chainIdNum)`. -/
def returnTags (chainId apiKey : String) (oracle : List HttpOutcome) :
    Option (Except String (List ContractTag) × ℕ) :=
  let chainIdNum := jsStringToNumber chainId
  if !chainIdNum.isInteger then
    some (.error ("Unsupported Chain ID: " ++ chainId ++ "."), 0)
  else if chainIdNum ≠ JSNum.fin 42161 then
    some (.error ("Unsupported Chain ID: " ++ chainId ++ "."), 0)
  else if apiKey = "" ∨ (jsTrim apiKey).length = 0 then
    some (.error "Missing API key. A The Graph gateway API key is required.", 0)
  else
    runLoop (jsNumToString chainIdNum) oracle initialState

instance : DecidableEq (Except String (List ContractTag)) := fun a b =>
  match a, b with
  | .ok x, .ok y =>
    if h : x = y then .isTrue (by rw [h]) else .isFalse (by simp [h])
  | .error x, .error y =>
    if h : x = y then .isTrue (by rw [h]) else .isFalse (by simp [h])
  | .ok _, .error _ => .isFalse (by simp)
  | .error _, .ok _ => .isFalse (by simp)

/-! ### Claim-side notions -/

/-- The validity policy as the spec words it: a record is skipped exactly when
its kind descriptor is empty or contains HTML-like markup. -/
def isValidRecord (p : Pool) : Bool :=
  !(p.factory.type == "" || containsHtmlOrMarkdown p.factory.type)

/-- The fetcher-contract scenario of claim C1: a run of pages for the current
cursor, each full (1000-record) page advancing the cursor (its last identifier
is greater than the cursor that requested it), ending in one short page. -/
def GoodPages : String → List (List Pool) → Prop
  | _, [] => False
  | _, [p] => p.length < 1000
  | cursor, p :: q :: rest =>
    p.length = 1000 ∧ cursor < lastIdOf p ∧ GoodPages (lastIdOf p) (q :: rest)


/-! ### Digit-string groundwork (for the abbreviation-rule proofs) -/

theorem char_isDigit_iff (c : Char) :
    c.isDigit = true ↔ 48 ≤ c.toNat ∧ c.toNat ≤ 57 := by
  simp only [Char.isDigit, Bool.and_eq_true, decide_eq_true_eq]
  exact Iff.rfl

theorem char_eq_zero_of_toNat (c : Char) (h : c.toNat = 48) : c = '0' := by
  have := Char.ofNat_toNat c
  rw [h] at this
  exact this.symm

theorem digitsToNat_go (l : List Char) : ∀ a : ℕ,
    l.foldl (fun acc c => acc * 10 + (c.toNat - 48)) a =
      a * 10 ^ l.length + digitsToNat l := by
  induction l with
  | nil => intro a; simp [digitsToNat]
  | cons c cs ih =>
    intro a
    simp only [List.foldl_cons, digitsToNat, List.length_cons] at *
    rw [ih, ih (0 * 10 + (c.toNat - 48))]
    ring

theorem digitsToNat_cons (c : Char) (cs : List Char) :
    digitsToNat (c :: cs) = (c.toNat - 48) * 10 ^ cs.length + digitsToNat cs := by
  have := digitsToNat_go cs (0 * 10 + (c.toNat - 48))
  simpa [digitsToNat] using this

theorem digitsToNat_append (l1 l2 : List Char) :
    digitsToNat (l1 ++ l2) = digitsToNat l1 * 10 ^ l2.length + digitsToNat l2 := by
  simp only [digitsToNat, List.foldl_append]
  exact digitsToNat_go l2 _

theorem digitsToNat_lt (l : List Char) (h : ∀ c ∈ l, c.toNat ≤ 57) :
    digitsToNat l < 10 ^ l.length := by
  induction l with
  | nil => simp [digitsToNat]
  | cons c cs ih =>
    have hc : c.toNat - 48 ≤ 9 := by
      have := h c (by simp)
      omega
    have hcs := ih (fun x hx => h x (by simp [hx]))
    rw [digitsToNat_cons, List.length_cons, pow_succ]
    calc (c.toNat - 48) * 10 ^ cs.length + digitsToNat cs
        ≤ 9 * 10 ^ cs.length + digitsToNat cs := by
          exact Nat.add_le_add_right (Nat.mul_le_mul_right _ hc) _
      _ < 9 * 10 ^ cs.length + 10 ^ cs.length := by omega
      _ = 10 ^ cs.length * 10 := by ring

theorem digitsToNat_replicate_zero (z : ℕ) :
    digitsToNat (List.replicate z '0') = 0 := by
  induction z with
  | zero => simp [digitsToNat]
  | succ k ih => rw [List.replicate_succ, digitsToNat_cons, ih]; simp

theorem digitsToNat_zeros_append (z : ℕ) (l : List Char) :
    digitsToNat (List.replicate z '0' ++ l) = digitsToNat l := by
  rw [digitsToNat_append, digitsToNat_replicate_zero]
  simp

theorem digitsToNat_head_lower (c : Char) (cs : List Char) (h : 49 ≤ c.toNat) :
    10 ^ cs.length ≤ digitsToNat (c :: cs) := by
  rw [digitsToNat_cons]
  have : 1 ≤ c.toNat - 48 := by omega
  calc 10 ^ cs.length = 1 * 10 ^ cs.length := by ring
    _ ≤ (c.toNat - 48) * 10 ^ cs.length := Nat.mul_le_mul_right _ this
    _ ≤ _ := Nat.le_add_right _ _

theorem all_zero_of_digitsToNat_eq_zero (l : List Char)
    (hd : ∀ c ∈ l, 48 ≤ c.toNat) (h : digitsToNat l = 0) :
    ∀ c ∈ l, c = '0' := by
  induction l with
  | nil => simp
  | cons c cs ih =>
    rw [digitsToNat_cons] at h
    have h1 : c.toNat - 48 = 0 := by
      have hp : 0 < 10 ^ cs.length := Nat.pos_pow_of_pos _ (by omega)
      by_contra hne
      have : 10 ^ cs.length ≤ (c.toNat - 48) * 10 ^ cs.length :=
        Nat.le_mul_of_pos_left _ (by omega)
      omega
    intro x hx
    rcases List.mem_cons.mp hx with hx | hx
    · subst hx
      exact char_eq_zero_of_toNat x (by have := hd x (by simp); omega)
    · exact ih (fun y hy => hd y (by simp [hy])) (by omega) x hx

/-! #### `Nat.toDigits 10` produces the decimal digit characters -/

theorem toDigitsCore_acc (b : ℕ) : ∀ (fuel n : ℕ) (ds : List Char),
    Nat.toDigitsCore b fuel n ds = Nat.toDigitsCore b fuel n [] ++ ds := by
  intro fuel
  induction fuel with
  | zero => intro n ds; simp [Nat.toDigitsCore]
  | succ f ih =>
    intro n ds
    simp only [Nat.toDigitsCore]
    by_cases h : n / b = 0
    · simp [h]
    · rw [if_neg h, if_neg h, ih (n / b) [Nat.digitChar (n % b)],
        ih (n / b) (Nat.digitChar (n % b) :: ds)]
      simp

theorem toDigitsCore_fuel : ∀ (n f1 f2 : ℕ), n < f1 → n < f2 →
    Nat.toDigitsCore 10 f1 n [] = Nat.toDigitsCore 10 f2 n [] := by
  intro n
  induction n using Nat.strong_induction_on with
  | _ n ih =>
    intro f1 f2 h1 h2
    match f1, f2 with
    | fa + 1, fb + 1 =>
      simp only [Nat.toDigitsCore]
      by_cases h : n / 10 = 0
      · simp [h]
      · rw [if_neg h, if_neg h, toDigitsCore_acc, toDigitsCore_acc 10 fb]
        have hlt : n / 10 < n := Nat.div_lt_self (by omega) (by omega)
        rw [ih (n / 10) hlt fa fb (by omega) (by omega)]

theorem toDigits_small (n : ℕ) (h : n < 10) :
    Nat.toDigits 10 n = [Nat.digitChar n] := by
  have h0 : n / 10 = 0 := Nat.div_eq_of_lt h
  have h1 : n % 10 = n := Nat.mod_eq_of_lt h
  simp [Nat.toDigits, Nat.toDigitsCore, h0, h1]

theorem toDigits_step (n : ℕ) (h : 10 ≤ n) :
    Nat.toDigits 10 n = Nat.toDigits 10 (n / 10) ++ [Nat.digitChar (n % 10)] := by
  have h0 : n / 10 ≠ 0 :=
    Nat.pos_iff_ne_zero.mp (Nat.div_pos h (by omega))
  show Nat.toDigitsCore 10 (n + 1) n [] = _
  simp only [Nat.toDigitsCore]
  rw [if_neg h0, toDigitsCore_acc]
  have : Nat.toDigitsCore 10 n (n / 10) [] = Nat.toDigits 10 (n / 10) := by
    exact toDigitsCore_fuel (n / 10) n (n / 10 + 1)
      (Nat.div_lt_self (by omega) (by omega)) (by omega)
  rw [this]

theorem digitChar_toNat (d : ℕ) (h : d < 10) :
    (Nat.digitChar d).toNat = 48 + d := by
  interval_cases d <;> decide

theorem toDigits_all_digits (n : ℕ) :
    ∀ c ∈ Nat.toDigits 10 n, 48 ≤ c.toNat ∧ c.toNat ≤ 57 := by
  induction n using Nat.strong_induction_on with
  | _ n ih =>
    by_cases h : n < 10
    · rw [toDigits_small n h]
      intro c hc
      simp at hc
      subst hc
      rw [digitChar_toNat n h]
      omega
    · rw [toDigits_step n (by omega)]
      intro c hc
      rcases List.mem_append.mp hc with hc | hc
      · exact ih (n / 10) (Nat.div_lt_self (by omega) (by omega)) c hc
      · simp at hc
        subst hc
        rw [digitChar_toNat _ (Nat.mod_lt _ (by omega))]
        have := Nat.mod_lt n (y := 10) (by omega)
        omega

theorem toDigits_digitsToNat (n : ℕ) :
    digitsToNat (Nat.toDigits 10 n) = n := by
  induction n using Nat.strong_induction_on with
  | _ n ih =>
    by_cases h : n < 10
    · rw [toDigits_small n h, digitsToNat_cons]
      simp [digitsToNat, digitChar_toNat n h]
    · rw [toDigits_step n (by omega), digitsToNat_append,
        ih (n / 10) (Nat.div_lt_self (by omega) (by omega))]
      have hm : n % 10 < 10 := Nat.mod_lt _ (by omega)
      simp [digitsToNat_cons, digitsToNat, digitChar_toNat _ hm]
      omega

theorem toDigits_ne_nil (n : ℕ) : Nat.toDigits 10 n ≠ [] := by
  by_cases h : n < 10
  · rw [toDigits_small n h]; simp
  · rw [toDigits_step n (by omega)]; simp

theorem toDigits_head_lower (n : ℕ) (hn : n ≠ 0) :
    ∀ c, (Nat.toDigits 10 n).head? = some c → 49 ≤ c.toNat := by
  induction n using Nat.strong_induction_on with
  | _ n ih =>
    intro c hc
    by_cases h : n < 10
    · rw [toDigits_small n h] at hc
      simp at hc
      subst hc
      rw [digitChar_toNat n h]
      omega
    · rw [toDigits_step n (by omega),
        List.head?_append_of_ne_nil _ (toDigits_ne_nil _)] at hc
      exact ih (n / 10) (Nat.div_lt_self (by omega) (by omega))
        (Nat.pos_iff_ne_zero.mp (Nat.div_pos (by omega) (by omega)))
        c hc

theorem toString_nat_data (n : ℕ) : (toString n).data = Nat.toDigits 10 n := rfl

theorem toString_nat_lt (n : ℕ) : n < 10 ^ (toString n).length := by
  have hb := digitsToNat_lt (Nat.toDigits 10 n)
    (fun c hc => (toDigits_all_digits n c hc).2)
  rw [toDigits_digitsToNat] at hb
  have hlen : (toString n).length = (Nat.toDigits 10 n).length := by
    show (toString n).data.length = _
    rw [toString_nat_data]
  rw [hlen]
  exact hb

theorem toString_nat_length_le (n B : ℕ) (hB : 1 ≤ B) (h : n < 10 ^ B) :
    (toString n).length ≤ B := by
  by_contra hgt
  push_neg at hgt
  obtain ⟨c, cs, hcons⟩ : ∃ c cs, Nat.toDigits 10 n = c :: cs := by
    cases hd : Nat.toDigits 10 n with
    | nil => exact absurd hd (toDigits_ne_nil n)
    | cons c cs => exact ⟨c, cs, rfl⟩
  by_cases hn : n = 0
  · subst hn
    have h1 : (toString (0 : ℕ)).length = 1 := rfl
    omega
  · have hhead : 49 ≤ c.toNat :=
      toDigits_head_lower n hn c (by rw [hcons]; rfl)
    have hlow : 10 ^ cs.length ≤ digitsToNat (c :: cs) :=
      digitsToNat_head_lower c cs hhead
    rw [← hcons, toDigits_digitsToNat] at hlow
    have hlen : (toString n).length = cs.length + 1 := by
      show (toString n).data.length = _
      rw [toString_nat_data, hcons]
      rfl
    have : 10 ^ B ≤ 10 ^ cs.length :=
      Nat.pow_le_pow_right (by omega) (by omega)
    omega


/-! #### Trailing-zero stripping on digit lists -/

theorem head_dropWhile_not (p : Char → Bool) (l : List Char) (c : Char)
    (h : (l.dropWhile p).head? = some c) : p c = false := by
  induction l with
  | nil => simp [List.dropWhile] at h
  | cons a as ih =>
    rw [List.dropWhile_cons] at h
    by_cases hp : p a
    · rw [if_pos hp] at h
      exact ih h
    · rw [if_neg hp] at h
      simp at h
      rw [← h]
      exact Bool.eq_false_iff.mpr hp

theorem dropWhile_append_neg (p : Char → Bool) (l1 l2 : List Char)
    (h : l1.dropWhile p ≠ []) :
    (l1 ++ l2).dropWhile p = l1.dropWhile p ++ l2 := by
  induction l1 with
  | nil => simp [List.dropWhile] at h
  | cons a as ih =>
    by_cases hp : p a
    · rw [List.cons_append, List.dropWhile_cons, if_pos hp, List.dropWhile_cons,
        if_pos hp]
      exact ih (by rwa [List.dropWhile_cons, if_pos hp] at h)
    · rw [List.cons_append, List.dropWhile_cons, if_neg hp, List.dropWhile_cons,
        if_neg hp, List.cons_append]

theorem dropTrailingZeros_decomp (l : List Char) :
    ∃ z, l = dropTrailingZeros l ++ List.replicate z '0' := by
  refine ⟨(l.reverse.takeWhile isZeroChar).length, ?_⟩
  have h1 : l.reverse.takeWhile isZeroChar =
      List.replicate (l.reverse.takeWhile isZeroChar).length '0' := by
    refine List.eq_replicate_of_mem ?_
    intro b hb
    have := List.mem_takeWhile_imp hb
    simpa [isZeroChar] using this
  have hrev : (l.reverse.takeWhile isZeroChar).reverse =
      List.replicate (l.reverse.takeWhile isZeroChar).length '0' := by
    conv_lhs => rw [h1]
    rw [List.reverse_replicate]
  conv_lhs => rw [← List.reverse_reverse l,
    ← List.takeWhile_append_dropWhile isZeroChar l.reverse]
  rw [List.reverse_append, hrev]
  rfl

theorem dropTrailingZeros_all_zero (l : List Char) (h : ∀ c ∈ l, c = '0') :
    dropTrailingZeros l = [] := by
  rw [dropTrailingZeros, List.dropWhile_eq_nil_iff.mpr, List.reverse_nil]
  intro c hc
  simp [isZeroChar, h c (List.mem_reverse.mp hc)]

theorem dropTrailingZeros_cons_of_ne (c : Char) (cs : List Char)
    (h : dropTrailingZeros cs ≠ []) :
    dropTrailingZeros (c :: cs) = c :: dropTrailingZeros cs := by
  rw [dropTrailingZeros, List.reverse_cons,
    dropWhile_append_neg _ _ _ (by
      intro he
      exact h (by rw [dropTrailingZeros, he, List.reverse_nil]))]
  rw [List.reverse_append]
  rfl

theorem dropTrailingZeros_cons_of_zero (c : Char) (cs : List Char)
    (hcs : dropTrailingZeros cs = []) (hc : c ≠ '0') :
    dropTrailingZeros (c :: cs) = [c] := by
  have hnil : cs.reverse.dropWhile isZeroChar = [] := by
    have := congrArg List.reverse hcs
    rwa [dropTrailingZeros, List.reverse_reverse, List.reverse_nil] at this
  rw [dropTrailingZeros, List.reverse_cons,
    List.dropWhile_append_of_pos (List.dropWhile_eq_nil_iff.mp hnil),
    List.dropWhile_cons, if_neg (by simp [isZeroChar, hc])]
  rfl

theorem dropTrailingZeros_nonnil_of_ne_zero (l : List Char)
    (h : digitsToNat l ≠ 0) :
    dropTrailingZeros l ≠ [] := by
  intro he
  obtain ⟨z, hz⟩ := dropTrailingZeros_decomp l
  rw [he, List.nil_append] at hz
  rw [hz, digitsToNat_replicate_zero] at h
  exact h rfl

theorem fracDigits_zero (fuel : ℕ) : fracDigits 0 fuel = [] := by
  cases fuel with
  | zero => rfl
  | succ f => simp [fracDigits]

/-- Main correctness of the fraction renderer: on the value of a digit list
`l` read as `0.l`, it emits exactly `l` with its trailing zeros removed,
provided the fuel covers the list length. -/
theorem fracDigits_correct (l : List Char)
    (hd : ∀ c ∈ l, 48 ≤ c.toNat ∧ c.toNat ≤ 57) :
    ∀ fuel, l.length ≤ fuel →
      fracDigits ((digitsToNat l : ℚ) / 10 ^ l.length) fuel = dropTrailingZeros l := by
  induction l with
  | nil =>
    intro fuel _
    have : dropTrailingZeros [] = [] := rfl
    simpa [digitsToNat, this] using fracDigits_zero fuel
  | cons c cs ih =>
    intro fuel hfuel
    match fuel, hfuel with
    | f + 1, hfuel =>
      by_cases hv0 : digitsToNat (c :: cs) = 0
      · rw [hv0]
        simp only [Nat.cast_zero, zero_div]
        rw [fracDigits_zero,
          dropTrailingZeros_all_zero _ (all_zero_of_digitsToNat_eq_zero _
            (fun x hx => (hd x hx).1) hv0)]
      · have hM : digitsToNat cs < 10 ^ cs.length :=
          digitsToNat_lt cs (fun x hx => (hd x (by simp [hx])).2)
        set v : ℚ := (digitsToNat (c :: cs) : ℚ) / 10 ^ (c :: cs).length with hv
        have hvne : v ≠ 0 := by
          rw [hv]
          exact div_ne_zero (by exact_mod_cast hv0) (by positivity)
        have hv10 : v * 10 = ((c.toNat - 48 : ℕ) : ℚ) +
            (digitsToNat cs : ℚ) / 10 ^ cs.length := by
          rw [hv, digitsToNat_cons]
          push_cast
          rw [List.length_cons, pow_succ]
          field_simp
          ring
        have hfr1 : (0 : ℚ) ≤ (digitsToNat cs : ℚ) / 10 ^ cs.length := by positivity
        have hfr2 : (digitsToNat cs : ℚ) / 10 ^ cs.length < 1 := by
          rw [div_lt_one (by positivity)]
          exact_mod_cast hM
        have hfloor : ⌊v * 10⌋ = ((c.toNat - 48 : ℕ) : ℤ) := by
          rw [Int.floor_eq_iff, hv10]
          constructor
          · push_cast
            linarith
          · push_cast
            linarith
        have htoNat : (⌊v * 10⌋).toNat = c.toNat - 48 := by
          rw [hfloor]
          exact Int.toNat_natCast _
        have hrem : v * 10 - (((⌊v * 10⌋).toNat : ℕ) : ℚ) =
            (digitsToNat cs : ℚ) / 10 ^ cs.length := by
          rw [htoNat, hv10]
          ring
        have hstep : fracDigits v (f + 1) =
            Char.ofNat (48 + (c.toNat - 48)) ::
              fracDigits ((digitsToNat cs : ℚ) / 10 ^ cs.length) f := by
          simp only [fracDigits]
          rw [if_neg hvne]
          show Char.ofNat (48 + (⌊v * 10⌋).toNat) ::
              fracDigits (v * 10 - (((⌊v * 10⌋).toNat : ℕ) : ℚ)) f = _
          rw [hrem, htoNat]
        have hcchar : Char.ofNat (48 + (c.toNat - 48)) = c := by
          have h48 : 48 + (c.toNat - 48) = c.toNat := by
            have := (hd c (by simp)).1
            omega
          rw [h48, Char.ofNat_toNat]
        have hfcs : cs.length ≤ f := by
          have : (c :: cs).length = cs.length + 1 := rfl
          omega
        rw [hstep, hcchar, ih (fun x hx => hd x (by simp [hx])) f hfcs]
        by_cases hcs0 : dropTrailingZeros cs = []
        · have hallz : ∀ x ∈ cs, x = '0' := by
            intro x hx
            have hnil : cs.reverse.dropWhile isZeroChar = [] := by
              have := congrArg List.reverse hcs0
              rwa [dropTrailingZeros, List.reverse_reverse, List.reverse_nil] at this
            have := List.dropWhile_eq_nil_iff.mp hnil x (List.mem_reverse.mpr hx)
            simpa [isZeroChar] using this
          have hM0 : digitsToNat cs = 0 := by
            have := List.eq_replicate_of_mem hallz
            rw [this, digitsToNat_replicate_zero]
          have hcne : c ≠ '0' := by
            intro hc0
            apply hv0
            rw [digitsToNat_cons, hM0, hc0]
            simp
          rw [hcs0, dropTrailingZeros_cons_of_zero c cs hcs0 hcne]
        · rw [dropTrailingZeros_cons_of_ne c cs hcs0]


/-! #### Decimal exponent search and fuel adequacy -/

theorem toString_nat_length_pos (n : ℕ) : 1 ≤ (toString n).length := by
  have hlen : (toString n).length = (Nat.toDigits 10 n).length := by
    show (toString n).data.length = _
    rw [toString_nat_data]
  rw [hlen]
  exact List.length_pos.mpr (toDigits_ne_nil n)

theorem ratLog10Neg_correct : ∀ (fuel : ℕ) (a : ℚ), 0 < a → a < 1 →
    1 ≤ a * 10 ^ fuel →
    1 ≤ a * 10 ^ ratLog10Neg a fuel ∧ a * 10 ^ ratLog10Neg a fuel < 10 ∧
      1 ≤ ratLog10Neg a fuel := by
  intro fuel
  induction fuel with
  | zero =>
    intro a ha h1 hade
    exfalso
    simp at hade
    linarith
  | succ f ih =>
    intro a ha h1 hade
    simp only [ratLog10Neg]
    by_cases h : 1 ≤ a * 10
    · rw [if_pos h]
      refine ⟨by simpa using h, ?_, le_refl 1⟩
      have : a * 10 < 10 := by linarith
      simpa using this
    · rw [if_neg h]
      push_neg at h
      have hade2 : 1 ≤ a * 10 * 10 ^ f := by
        rw [pow_succ] at hade
        calc (1 : ℚ) ≤ a * (10 ^ f * 10) := hade
          _ = a * 10 * 10 ^ f := by ring
      obtain ⟨hh1, hh2, hh3⟩ := ih (a * 10) (by positivity) h hade2
      set k := ratLog10Neg (a * 10) f
      have hpow : a * 10 ^ (k + 1) = a * 10 * 10 ^ k := by
        rw [pow_succ]
        ring
      exact ⟨by rw [hpow]; exact hh1, by rw [hpow]; exact hh2, by omega⟩

theorem ratLog10Neg_fuel_ok (q : ℚ) (h0 : 0 < q) :
    1 ≤ q * 10 ^ fracFuel q.den := by
  have hnum : (1 : ℚ) ≤ (q.num : ℚ) := by
    exact_mod_cast Rat.num_pos.mpr h0
  have hlen : (toString q.den).length ≤ fracFuel q.den := by
    rw [fracFuel]
    omega
  have hden : (q.den : ℚ) ≤ 10 ^ fracFuel q.den := by
    calc (q.den : ℚ) ≤ 10 ^ (toString q.den).length := by
          exact_mod_cast le_of_lt (toString_nat_lt q.den)
      _ ≤ 10 ^ fracFuel q.den := by
          exact pow_le_pow_right (by norm_num) hlen
  calc (1 : ℚ) ≤ (q.num : ℚ) := hnum
    _ = q * q.den := (Rat.mul_den_eq_num q).symm
    _ ≤ q * 10 ^ fracFuel q.den := by
        exact mul_le_mul_of_nonneg_left hden (le_of_lt h0)

theorem den_bound (m L : ℕ) (hm : 0 < m) :
    10 ^ L ≤ m * ((m : ℚ) / 10 ^ L).den := by
  set q : ℚ := (m : ℚ) / 10 ^ L with hq
  have hq0 : 0 < q := by
    rw [hq]
    positivity
  have hqe : q * 10 ^ L = m := by
    rw [hq]
    field_simp
  have h1 : (q.num : ℚ) * 10 ^ L = (m : ℚ) * q.den := by
    calc (q.num : ℚ) * 10 ^ L = q * (q.den : ℚ) * 10 ^ L := by
          rw [Rat.mul_den_eq_num]
      _ = q * 10 ^ L * q.den := by ring
      _ = (m : ℚ) * q.den := by rw [hqe]
  have h2 : (10 : ℚ) ^ L ≤ (m : ℚ) * q.den := by
    calc (10 : ℚ) ^ L = 1 * 10 ^ L := by ring
      _ ≤ (q.num : ℚ) * 10 ^ L := by
          exact mul_le_mul_of_nonneg_right
            (by exact_mod_cast Rat.num_pos.mpr hq0) (by positivity)
      _ = _ := h1
  exact_mod_cast h2

/-- At every fraction the module renders, the numerator is below `10 ^ 4`, so
the digit-length of the fraction is covered by the renderer fuel. -/
theorem fracFuel_covers (m L : ℕ) (hm : 0 < m) (hmlt : m < 10 ^ 4) (hL : 4 ≤ L) :
    L ≤ fracFuel ((m : ℚ) / 10 ^ L).den := by
  set d := ((m : ℚ) / 10 ^ L).den with hd
  have h1 : 10 ^ L ≤ m * d := den_bound m L hm
  have h2 : d < 10 ^ (toString d).length := toString_nat_lt d
  have h3 : 10 ^ L < 10 ^ (4 + (toString d).length) := by
    calc 10 ^ L ≤ m * d := h1
      _ < 10 ^ 4 * 10 ^ (toString d).length := by
          exact Nat.mul_lt_mul_of_lt_of_le hmlt (le_of_lt h2) (by
            exact Nat.pos_pow_of_pos _ (by omega))
      _ = 10 ^ (4 + (toString d).length) := by rw [pow_add]
  have hL4 : L < 4 + (toString d).length :=
    (Nat.pow_lt_pow_iff_right (by omega)).mp h3
  have := toString_nat_length_pos d
  rw [fracFuel]
  omega


/-! #### Parsing the strings that `toPrecision4` emits -/

theorem not_jsWhitespace_of_range (c : Char) (h1 : 45 ≤ c.toNat)
    (h2 : c.toNat ≤ 122) : isJsWhitespace c = false := by
  rw [isJsWhitespace]
  simp only [Bool.or_eq_false_iff, Bool.and_eq_false_iff, decide_eq_false_iff_not]
  omega

theorem dropWhile_id_of_head (p : Char → Bool) (l : List Char)
    (h : ∀ c, l.head? = some c → p c = false) : l.dropWhile p = l := by
  cases l with
  | nil => rfl
  | cons a as =>
    rw [List.dropWhile_cons, if_neg (by simp [h a rfl])]

theorem trim_plain (l : List Char) (hr : ∀ c ∈ l, isJsWhitespace c = false) :
    ((l.dropWhile isJsWhitespace).reverse.dropWhile isJsWhitespace).reverse = l := by
  rw [dropWhile_id_of_head _ l (fun c hc => hr c (by
    cases l with
    | nil => simp at hc
    | cons a as => simp at hc; simp [hc]))]
  rw [dropWhile_id_of_head _ l.reverse (fun c hc => hr c (by
    have : c ∈ l.reverse := by
      cases hrev : l.reverse with
      | nil => rw [hrev] at hc; simp at hc
      | cons a as => rw [hrev] at hc; simp at hc; simp [hrev, hc]
    exact List.mem_reverse.mp this))]
  exact List.reverse_reverse l

theorem digit_in_plain_range (c : Char) (h : 48 ≤ c.toNat ∧ c.toNat ≤ 57) :
    45 ≤ c.toNat ∧ c.toNat ≤ 122 := by omega

theorem takeWhile_digits_eq_self (F : List Char)
    (hF : ∀ c ∈ F, 48 ≤ c.toNat ∧ c.toNat ≤ 57) :
    F.takeWhile Char.isDigit = F :=
  List.takeWhile_eq_self_iff.mpr (fun c hc => (char_isDigit_iff c).mpr (hF c hc))

theorem dropWhile_digits_eq_nil (F : List Char)
    (hF : ∀ c ∈ F, 48 ≤ c.toNat ∧ c.toNat ≤ 57) :
    F.dropWhile Char.isDigit = [] :=
  List.dropWhile_eq_nil_iff.mpr (fun c hc => (char_isDigit_iff c).mpr (hF c hc))

theorem digitsToNat_single (d : Char) : digitsToNat [d] = d.toNat - 48 := by
  rw [digitsToNat_cons]
  simp [digitsToNat]

theorem parseDecimalLit_fixed (d : Char) (F : List Char)
    (hd : 48 ≤ d.toNat ∧ d.toNat ≤ 57)
    (hF : ∀ c ∈ F, 48 ≤ c.toNat ∧ c.toNat ≤ 57) :
    parseDecimalLit (d :: '.' :: F) =
      some (((d.toNat - 48 : ℕ) : ℚ) + (digitsToNat F : ℚ) / 10 ^ F.length) := by
  have hred : parseDecimalLit (d :: '.' :: F) =
      (if [d] = ([] : List Char) ∧ F.takeWhile Char.isDigit = [] then none
       else Option.map (fun e => ((digitsToNat [d] : ℚ) +
           (digitsToNat (F.takeWhile Char.isDigit) : ℚ) /
             10 ^ (F.takeWhile Char.isDigit).length) * (10 : ℚ) ^ e)
         (parseExpPart (F.dropWhile Char.isDigit))) := by
    simp only [parseDecimalLit]
    rw [List.takeWhile_cons_of_pos (by exact (char_isDigit_iff d).mpr hd),
      List.takeWhile_cons_of_neg (by decide : ¬ ('.'.isDigit = true)),
      List.dropWhile_cons, if_pos (by exact (char_isDigit_iff d).mpr hd),
      List.dropWhile_cons, if_neg (by decide : ¬ ('.'.isDigit = true))]
    rfl
  rw [hred, takeWhile_digits_eq_self F hF, dropWhile_digits_eq_nil F hF,
    if_neg (by simp), show parseExpPart [] = some 0 from rfl]
  simp [digitsToNat_single, zpow_zero]

theorem parseDecimalLit_exp (d : Char) (F K : List Char)
    (hd : 48 ≤ d.toNat ∧ d.toNat ≤ 57)
    (hF : ∀ c ∈ F, 48 ≤ c.toNat ∧ c.toNat ≤ 57)
    (hK : ∀ c ∈ K, 48 ≤ c.toNat ∧ c.toNat ≤ 57) (hKne : K ≠ []) :
    parseDecimalLit (d :: '.' :: (F ++ 'e' :: '-' :: K)) =
      some ((((d.toNat - 48 : ℕ) : ℚ) + (digitsToNat F : ℚ) / 10 ^ F.length) *
        (10 : ℚ) ^ (-(digitsToNat K : ℤ))) := by
  have hred : parseDecimalLit (d :: '.' :: (F ++ 'e' :: '-' :: K)) =
      (if [d] = ([] : List Char) ∧
          (F ++ 'e' :: '-' :: K).takeWhile Char.isDigit = [] then none
       else Option.map (fun e => ((digitsToNat [d] : ℚ) +
           (digitsToNat ((F ++ 'e' :: '-' :: K).takeWhile Char.isDigit) : ℚ) /
             10 ^ ((F ++ 'e' :: '-' :: K).takeWhile Char.isDigit).length) *
             (10 : ℚ) ^ e)
         (parseExpPart ((F ++ 'e' :: '-' :: K).dropWhile Char.isDigit))) := by
    simp only [parseDecimalLit]
    rw [List.takeWhile_cons_of_pos (by exact (char_isDigit_iff d).mpr hd),
      List.takeWhile_cons_of_neg (by decide : ¬ ('.'.isDigit = true)),
      List.dropWhile_cons, if_pos (by exact (char_isDigit_iff d).mpr hd),
      List.dropWhile_cons, if_neg (by decide : ¬ ('.'.isDigit = true))]
    rfl
  have htk : (F ++ 'e' :: '-' :: K).takeWhile Char.isDigit = F := by
    rw [List.takeWhile_append_of_pos
        (fun c hc => (char_isDigit_iff c).mpr (hF c hc)),
      List.takeWhile_cons_of_neg (by decide : ¬ ('e'.isDigit = true)),
      List.append_nil]
  have hdw : (F ++ 'e' :: '-' :: K).dropWhile Char.isDigit = 'e' :: '-' :: K := by
    rw [List.dropWhile_append_of_pos
        (fun c hc => (char_isDigit_iff c).mpr (hF c hc)),
      List.dropWhile_cons, if_neg (by decide : ¬ ('e'.isDigit = true))]
  have hexp : parseExpPart ('e' :: '-' :: K) = some (-(digitsToNat K : ℤ)) := by
    show (if 'e' = 'e' ∨ 'e' = 'E' then
            if K ≠ [] ∧ K.all Char.isDigit = true then some (-(digitsToNat K : ℤ))
            else none
          else none) = _
    rw [if_pos (Or.inl rfl), if_pos ⟨hKne, List.all_eq_true.mpr
      (fun c hc => (char_isDigit_iff c).mpr (hK c hc))⟩]
  rw [hred, htk, hdw, if_neg (by simp), hexp]
  simp [digitsToNat_single]

theorem not_infinity_of_digit_head (d : Char) (rest : List Char)
    (hd : d.toNat ≤ 57) : d :: rest ≠ "Infinity".data := by
  intro he
  have hdI : d = 'I' := by
    have := congrArg List.head? he
    simpa using this
  rw [hdI] at hd
  exact absurd hd (by decide)

theorem parseUnsignedDec_fixed (d : Char) (F : List Char)
    (hd : 48 ≤ d.toNat ∧ d.toNat ≤ 57)
    (hF : ∀ c ∈ F, 48 ≤ c.toNat ∧ c.toNat ≤ 57) :
    parseUnsignedDec (d :: '.' :: F) =
      .fin (((d.toNat - 48 : ℕ) : ℚ) + (digitsToNat F : ℚ) / 10 ^ F.length) := by
  rw [parseUnsignedDec, if_neg (not_infinity_of_digit_head d _ hd.2),
    parseDecimalLit_fixed d F hd hF]

theorem parseUnsignedDec_exp (d : Char) (F K : List Char)
    (hd : 48 ≤ d.toNat ∧ d.toNat ≤ 57)
    (hF : ∀ c ∈ F, 48 ≤ c.toNat ∧ c.toNat ≤ 57)
    (hK : ∀ c ∈ K, 48 ≤ c.toNat ∧ c.toNat ≤ 57) (hKne : K ≠ []) :
    parseUnsignedDec (d :: '.' :: (F ++ 'e' :: '-' :: K)) =
      .fin ((((d.toNat - 48 : ℕ) : ℚ) + (digitsToNat F : ℚ) / 10 ^ F.length) *
        (10 : ℚ) ^ (-(digitsToNat K : ℤ))) := by
  rw [parseUnsignedDec, if_neg (not_infinity_of_digit_head d _ hd.2),
    parseDecimalLit_exp d F K hd hF hK hKne]


theorem trim_plain_mk (l : List Char) (hr : ∀ c ∈ l, isJsWhitespace c = false) :
    (((String.mk l).data.dropWhile isJsWhitespace).reverse.dropWhile
      isJsWhitespace).reverse = l :=
  trim_plain l hr

theorem jsStringToNumber_fixed_pos (d : Char) (F : List Char)
    (hd : 48 ≤ d.toNat ∧ d.toNat ≤ 57)
    (hF : ∀ c ∈ F, 48 ≤ c.toNat ∧ c.toNat ≤ 57) :
    jsStringToNumber (String.mk (d :: '.' :: F)) =
      .fin (((d.toNat - 48 : ℕ) : ℚ) + (digitsToNat F : ℚ) / 10 ^ F.length) := by
  have hws : ∀ c ∈ (d :: '.' :: F), isJsWhitespace c = false := by
    intro c hc
    rcases List.mem_cons.mp hc with rfl | hc
    · exact not_jsWhitespace_of_range _ (by omega) (by omega)
    rcases List.mem_cons.mp hc with rfl | hc
    · decide
    · exact not_jsWhitespace_of_range _ (by have := hF c hc; omega)
        (by have := hF c hc; omega)
  have hofn : d = Char.ofNat d.toNat := (Char.ofNat_toNat d).symm
  have hd10 : d.toNat = 48 ∨ d.toNat = 49 ∨ d.toNat = 50 ∨ d.toNat = 51 ∨
      d.toNat = 52 ∨ d.toNat = 53 ∨ d.toNat = 54 ∨ d.toNat = 55 ∨
      d.toNat = 56 ∨ d.toNat = 57 := by omega
  rcases hd10 with h|h|h|h|h|h|h|h|h|h
  · rw [h] at hofn
    have hd0 : d = '0' := hofn.trans (by decide)
    subst hd0
    simp only [jsStringToNumber]
    rw [trim_plain_mk _ hws]
    show parseUnsignedDec ('0' :: '.' :: F) = _
    exact parseUnsignedDec_fixed _ F (by decide) hF
  · rw [h] at hofn
    have hd0 : d = '1' := hofn.trans (by decide)
    subst hd0
    simp only [jsStringToNumber]
    rw [trim_plain_mk _ hws]
    show parseUnsignedDec ('1' :: '.' :: F) = _
    exact parseUnsignedDec_fixed _ F (by decide) hF
  · rw [h] at hofn
    have hd0 : d = '2' := hofn.trans (by decide)
    subst hd0
    simp only [jsStringToNumber]
    rw [trim_plain_mk _ hws]
    show parseUnsignedDec ('2' :: '.' :: F) = _
    exact parseUnsignedDec_fixed _ F (by decide) hF
  · rw [h] at hofn
    have hd0 : d = '3' := hofn.trans (by decide)
    subst hd0
    simp only [jsStringToNumber]
    rw [trim_plain_mk _ hws]
    show parseUnsignedDec ('3' :: '.' :: F) = _
    exact parseUnsignedDec_fixed _ F (by decide) hF
  · rw [h] at hofn
    have hd0 : d = '4' := hofn.trans (by decide)
    subst hd0
    simp only [jsStringToNumber]
    rw [trim_plain_mk _ hws]
    show parseUnsignedDec ('4' :: '.' :: F) = _
    exact parseUnsignedDec_fixed _ F (by decide) hF
  · rw [h] at hofn
    have hd0 : d = '5' := hofn.trans (by decide)
    subst hd0
    simp only [jsStringToNumber]
    rw [trim_plain_mk _ hws]
    show parseUnsignedDec ('5' :: '.' :: F) = _
    exact parseUnsignedDec_fixed _ F (by decide) hF
  · rw [h] at hofn
    have hd0 : d = '6' := hofn.trans (by decide)
    subst hd0
    simp only [jsStringToNumber]
    rw [trim_plain_mk _ hws]
    show parseUnsignedDec ('6' :: '.' :: F) = _
    exact parseUnsignedDec_fixed _ F (by decide) hF
  · rw [h] at hofn
    have hd0 : d = '7' := hofn.trans (by decide)
    subst hd0
    simp only [jsStringToNumber]
    rw [trim_plain_mk _ hws]
    show parseUnsignedDec ('7' :: '.' :: F) = _
    exact parseUnsignedDec_fixed _ F (by decide) hF
  · rw [h] at hofn
    have hd0 : d = '8' := hofn.trans (by decide)
    subst hd0
    simp only [jsStringToNumber]
    rw [trim_plain_mk _ hws]
    show parseUnsignedDec ('8' :: '.' :: F) = _
    exact parseUnsignedDec_fixed _ F (by decide) hF
  · rw [h] at hofn
    have hd0 : d = '9' := hofn.trans (by decide)
    subst hd0
    simp only [jsStringToNumber]
    rw [trim_plain_mk _ hws]
    show parseUnsignedDec ('9' :: '.' :: F) = _
    exact parseUnsignedDec_fixed _ F (by decide) hF

theorem jsStringToNumber_fixed_neg (d : Char) (F : List Char)
    (hd : 48 ≤ d.toNat ∧ d.toNat ≤ 57)
    (hF : ∀ c ∈ F, 48 ≤ c.toNat ∧ c.toNat ≤ 57) :
    jsStringToNumber (String.mk ('-' :: d :: '.' :: F)) =
      .fin (-(((d.toNat - 48 : ℕ) : ℚ) + (digitsToNat F : ℚ) / 10 ^ F.length)) := by
  have hws : ∀ c ∈ ('-' :: d :: '.' :: F), isJsWhitespace c = false := by
    intro c hc
    rcases List.mem_cons.mp hc with rfl | hc
    · decide
    rcases List.mem_cons.mp hc with rfl | hc
    · exact not_jsWhitespace_of_range _ (by omega) (by omega)
    rcases List.mem_cons.mp hc with rfl | hc
    · decide
    · exact not_jsWhitespace_of_range _ (by have := hF c hc; omega)
        (by have := hF c hc; omega)
  simp only [jsStringToNumber]
  rw [trim_plain_mk _ hws]
  show jsNegate (parseUnsignedDec (d :: '.' :: F)) = _
  rw [parseUnsignedDec_fixed d F hd hF]
  rfl

theorem jsStringToNumber_exp_pos (d : Char) (F K : List Char)
    (hd : 48 ≤ d.toNat ∧ d.toNat ≤ 57)
    (hF : ∀ c ∈ F, 48 ≤ c.toNat ∧ c.toNat ≤ 57)
    (hK : ∀ c ∈ K, 48 ≤ c.toNat ∧ c.toNat ≤ 57) (hKne : K ≠ []) :
    jsStringToNumber (String.mk (d :: '.' :: (F ++ 'e' :: '-' :: K))) =
      .fin ((((d.toNat - 48 : ℕ) : ℚ) + (digitsToNat F : ℚ) / 10 ^ F.length) *
        (10 : ℚ) ^ (-(digitsToNat K : ℤ))) := by
  have hws : ∀ c ∈ (d :: '.' :: (F ++ 'e' :: '-' :: K)),
      isJsWhitespace c = false := by
    intro c hc
    rcases List.mem_cons.mp hc with rfl | hc
    · exact not_jsWhitespace_of_range _ (by omega) (by omega)
    rcases List.mem_cons.mp hc with rfl | hc
    · decide
    rcases List.mem_append.mp hc with hc | hc
    · exact not_jsWhitespace_of_range _ (by have := hF c hc; omega)
        (by have := hF c hc; omega)
    rcases List.mem_cons.mp hc with rfl | hc
    · decide
    rcases List.mem_cons.mp hc with rfl | hc
    · decide
    · exact not_jsWhitespace_of_range _ (by have := hK c hc; omega)
        (by have := hK c hc; omega)
  have hofn : d = Char.ofNat d.toNat := (Char.ofNat_toNat d).symm
  have hd10 : d.toNat = 48 ∨ d.toNat = 49 ∨ d.toNat = 50 ∨ d.toNat = 51 ∨
      d.toNat = 52 ∨ d.toNat = 53 ∨ d.toNat = 54 ∨ d.toNat = 55 ∨
      d.toNat = 56 ∨ d.toNat = 57 := by omega
  rcases hd10 with h|h|h|h|h|h|h|h|h|h
  · rw [h] at hofn
    have hd0 : d = '0' := hofn.trans (by decide)
    subst hd0
    simp only [jsStringToNumber]
    rw [trim_plain_mk _ hws]
    show parseUnsignedDec ('0' :: '.' :: (F ++ 'e' :: '-' :: K)) = _
    exact parseUnsignedDec_exp _ F K (by decide) hF hK hKne
  · rw [h] at hofn
    have hd0 : d = '1' := hofn.trans (by decide)
    subst hd0
    simp only [jsStringToNumber]
    rw [trim_plain_mk _ hws]
    show parseUnsignedDec ('1' :: '.' :: (F ++ 'e' :: '-' :: K)) = _
    exact parseUnsignedDec_exp _ F K (by decide) hF hK hKne
  · rw [h] at hofn
    have hd0 : d = '2' := hofn.trans (by decide)
    subst hd0
    simp only [jsStringToNumber]
    rw [trim_plain_mk _ hws]
    show parseUnsignedDec ('2' :: '.' :: (F ++ 'e' :: '-' :: K)) = _
    exact parseUnsignedDec_exp _ F K (by decide) hF hK hKne
  · rw [h] at hofn
    have hd0 : d = '3' := hofn.trans (by decide)
    subst hd0
    simp only [jsStringToNumber]
    rw [trim_plain_mk _ hws]
    show parseUnsignedDec ('3' :: '.' :: (F ++ 'e' :: '-' :: K)) = _
    exact parseUnsignedDec_exp _ F K (by decide) hF hK hKne
  · rw [h] at hofn
    have hd0 : d = '4' := hofn.trans (by decide)
    subst hd0
    simp only [jsStringToNumber]
    rw [trim_plain_mk _ hws]
    show parseUnsignedDec ('4' :: '.' :: (F ++ 'e' :: '-' :: K)) = _
    exact parseUnsignedDec_exp _ F K (by decide) hF hK hKne
  · rw [h] at hofn
    have hd0 : d = '5' := hofn.trans (by decide)
    subst hd0
    simp only [jsStringToNumber]
    rw [trim_plain_mk _ hws]
    show parseUnsignedDec ('5' :: '.' :: (F ++ 'e' :: '-' :: K)) = _
    exact parseUnsignedDec_exp _ F K (by decide) hF hK hKne
  · rw [h] at hofn
    have hd0 : d = '6' := hofn.trans (by decide)
    subst hd0
    simp only [jsStringToNumber]
    rw [trim_plain_mk _ hws]
    show parseUnsignedDec ('6' :: '.' :: (F ++ 'e' :: '-' :: K)) = _
    exact parseUnsignedDec_exp _ F K (by decide) hF hK hKne
  · rw [h] at hofn
    have hd0 : d = '7' := hofn.trans (by decide)
    subst hd0
    simp only [jsStringToNumber]
    rw [trim_plain_mk _ hws]
    show parseUnsignedDec ('7' :: '.' :: (F ++ 'e' :: '-' :: K)) = _
    exact parseUnsignedDec_exp _ F K (by decide) hF hK hKne
  · rw [h] at hofn
    have hd0 : d = '8' := hofn.trans (by decide)
    subst hd0
    simp only [jsStringToNumber]
    rw [trim_plain_mk _ hws]
    show parseUnsignedDec ('8' :: '.' :: (F ++ 'e' :: '-' :: K)) = _
    exact parseUnsignedDec_exp _ F K (by decide) hF hK hKne
  · rw [h] at hofn
    have hd0 : d = '9' := hofn.trans (by decide)
    subst hd0
    simp only [jsStringToNumber]
    rw [trim_plain_mk _ hws]
    show parseUnsignedDec ('9' :: '.' :: (F ++ 'e' :: '-' :: K)) = _
    exact parseUnsignedDec_exp _ F K (by decide) hF hK hKne

theorem jsStringToNumber_exp_neg (d : Char) (F K : List Char)
    (hd : 48 ≤ d.toNat ∧ d.toNat ≤ 57)
    (hF : ∀ c ∈ F, 48 ≤ c.toNat ∧ c.toNat ≤ 57)
    (hK : ∀ c ∈ K, 48 ≤ c.toNat ∧ c.toNat ≤ 57) (hKne : K ≠ []) :
    jsStringToNumber (String.mk ('-' :: d :: '.' :: (F ++ 'e' :: '-' :: K))) =
      .fin (-((((d.toNat - 48 : ℕ) : ℚ) + (digitsToNat F : ℚ) / 10 ^ F.length) *
        (10 : ℚ) ^ (-(digitsToNat K : ℤ)))) := by
  have hws : ∀ c ∈ ('-' :: d :: '.' :: (F ++ 'e' :: '-' :: K)),
      isJsWhitespace c = false := by
    intro c hc
    rcases List.mem_cons.mp hc with rfl | hc
    · decide
    rcases List.mem_cons.mp hc with rfl | hc
    · exact not_jsWhitespace_of_range _ (by omega) (by omega)
    rcases List.mem_cons.mp hc with rfl | hc
    · decide
    rcases List.mem_append.mp hc with hc | hc
    · exact not_jsWhitespace_of_range _ (by have := hF c hc; omega)
        (by have := hF c hc; omega)
    rcases List.mem_cons.mp hc with rfl | hc
    · decide
    rcases List.mem_cons.mp hc with rfl | hc
    · decide
    · exact not_jsWhitespace_of_range _ (by have := hK c hc; omega)
        (by have := hK c hc; omega)
  simp only [jsStringToNumber]
  rw [trim_plain_mk _ hws]
  show jsNegate (parseUnsignedDec (d :: '.' :: (F ++ 'e' :: '-' :: K))) = _
  rw [parseUnsignedDec_exp d F K hd hF hK hKne]
  rfl

/-! #### Rendering the emitted shapes (`jsRatToString` on parse results) -/

theorem string_data_ext (a b : String) (h : a.data = b.data) : a = b := by
  cases a
  cases b
  cases h
  rfl

theorem string_append_data (a b : String) : (a ++ b).data = a.data ++ b.data := rfl

theorem string_mk_data (s : String) : String.mk s.data = s := by
  cases s
  rfl

theorem mathAbs_nonneg (q : ℚ) : 0 ≤ mathAbs q := by
  rw [mathAbs]
  by_cases h : q < 0
  · rw [if_pos h]; linarith
  · rw [if_neg h]; linarith [not_lt.mp h]

theorem mathAbs_pos (q : ℚ) (h : q ≠ 0) : 0 < mathAbs q := by
  rcases lt_trichotomy q 0 with h1 | h1 | h1
  · rw [mathAbs, if_pos h1]; linarith
  · exact absurd h1 h
  · rw [mathAbs, if_neg (by linarith)]; exact h1

theorem mathAbs_of_pos (q : ℚ) (h : 0 < q) : mathAbs q = q := by
  rw [mathAbs, if_neg (by linarith)]

theorem mathAbs_of_neg (q : ℚ) (h : q < 0) : mathAbs q = -q := by
  rw [mathAbs, if_pos h]

theorem mathAbs_eq_zero_iff (q : ℚ) : mathAbs q = 0 ↔ q = 0 := by
  constructor
  · intro h
    by_contra hq
    exact absurd h (ne_of_gt (mathAbs_pos q hq))
  · intro h
    rw [h, mathAbs, if_neg (by norm_num)]

theorem log_lt_aux (v : ℚ) (i j : ℕ) (hij : i < j) (hi1 : 1 ≤ v * 10 ^ i) :
    10 ≤ v * 10 ^ j := by
  have hv : 0 < v := by
    by_contra hv
    push_neg at hv
    have : v * 10 ^ i ≤ 0 :=
      mul_nonpos_of_nonpos_of_nonneg hv (by positivity)
    linarith
  have hj' : i + (j - i) = j := by omega
  have hsplit : v * 10 ^ j = (v * 10 ^ i) * 10 ^ (j - i) := by
    rw [mul_assoc, ← pow_add, hj']
  have h1 : (10 : ℚ) ≤ 10 ^ (j - i) := by
    calc (10 : ℚ) = 10 ^ 1 := (pow_one 10).symm
    _ ≤ 10 ^ (j - i) := by
        apply pow_le_pow_right (by norm_num)
        omega
  rw [hsplit]
  nlinarith

theorem log_unique (v : ℚ) (i j : ℕ) (hi1 : 1 ≤ v * 10 ^ i)
    (hi2 : v * 10 ^ i < 10) (hj1 : 1 ≤ v * 10 ^ j) (hj2 : v * 10 ^ j < 10) :
    i = j := by
  rcases lt_trichotomy i j with h | h | h
  · exact absurd (log_lt_aux v i j h hi1) (not_le.mpr hj2)
  · exact h
  · exact absurd (log_lt_aux v j i h hj1) (not_le.mpr hi2)

theorem dropTrailingZeros_append_zeros (A : List Char) (z : ℕ) :
    dropTrailingZeros (A ++ List.replicate z '0') = dropTrailingZeros A := by
  rw [dropTrailingZeros, dropTrailingZeros, List.reverse_append,
    List.reverse_replicate,
    List.dropWhile_append_of_pos (by
      intro a ha
      have := List.eq_of_mem_replicate ha
      simp [isZeroChar, this])]

theorem dropTrailingZeros_append (A B : List Char)
    (hB : dropTrailingZeros B ≠ []) :
    dropTrailingZeros (A ++ B) = A ++ dropTrailingZeros B := by
  have hrev : B.reverse.dropWhile isZeroChar ≠ [] := by
    intro he
    exact hB (by rw [dropTrailingZeros, he, List.reverse_nil])
  rw [dropTrailingZeros, List.reverse_append, dropWhile_append_neg _ _ _ hrev,
    List.reverse_append, List.reverse_reverse]
  rfl

theorem digitsToNat_pos_of_dropTrailingZeros_ne (l : List Char)
    (hd : ∀ c ∈ l, 48 ≤ c.toNat ∧ c.toNat ≤ 57)
    (h : dropTrailingZeros l ≠ []) : digitsToNat l ≠ 0 := by
  intro h0
  have hall := all_zero_of_digitsToNat_eq_zero l (fun c hc => (hd c hc).1) h0
  exact h (dropTrailingZeros_all_zero l hall)

theorem dropTrailingZeros_sub (l : List Char) :
    ∀ c ∈ dropTrailingZeros l, c ∈ l := by
  intro c hc
  obtain ⟨z, hz⟩ := dropTrailingZeros_decomp l
  rw [hz]
  exact List.mem_append_left _ hc

theorem getLast_dropTrailingZeros_ne_zero (l : List Char) (c : Char)
    (h : (dropTrailingZeros l).getLast? = some c) : c ≠ '0' := by
  have hrev : (dropTrailingZeros l).reverse.head? = some c := by
    rw [List.head?_reverse, h]
  rw [dropTrailingZeros, List.reverse_reverse] at hrev
  have := head_dropWhile_not isZeroChar l.reverse c hrev
  simpa [isZeroChar] using this

theorem mem_of_getLast_some (l : List Char) (c : Char)
    (h : l.getLast? = some c) : c ∈ l := by
  obtain ⟨hne, heq⟩ := List.mem_getLast?_eq_getLast (by rw [h]; rfl)
  rw [heq]
  exact List.getLast_mem hne


theorem string_empty_append (s : String) : "" ++ s = s := by
  apply string_data_ext
  rw [string_append_data]
  exact rfl

theorem string_append_empty (s : String) : s ++ "" = s := by
  apply string_data_ext
  rw [string_append_data]
  exact List.append_nil s.data

theorem int_floor_zero_of_frac (x : ℚ) (h0 : 0 ≤ x) (h1 : x < 1) : ⌊x⌋ = 0 := by
  rw [Int.floor_eq_zero_iff]
  exact ⟨h0, h1⟩

theorem fixedDec_frac (F : List Char)
    (hF : ∀ c ∈ F, 48 ≤ c.toNat ∧ c.toNat ≤ 57)
    (hne : digitsToNat F ≠ 0) (hlen : 4 ≤ F.length)
    (hmlt : digitsToNat F < 10 ^ 4) :
    fixedDec ((digitsToNat F : ℚ) / 10 ^ F.length) =
      "0." ++ String.mk (dropTrailingZeros F) := by
  have hpos : (0 : ℚ) < 10 ^ F.length := by positivity
  have hlt1 : (digitsToNat F : ℚ) / 10 ^ F.length < 1 := by
    rw [div_lt_one hpos]
    exact_mod_cast digitsToNat_lt F (fun c hc => (hF c hc).2)
  have hge0 : (0 : ℚ) ≤ (digitsToNat F : ℚ) / 10 ^ F.length := by positivity
  have hfl : ⌊(digitsToNat F : ℚ) / 10 ^ F.length⌋ = 0 :=
    int_floor_zero_of_frac _ hge0 hlt1
  have hfuel : F.length ≤ fracFuel (((digitsToNat F : ℕ) : ℚ) / 10 ^ F.length).den :=
    fracFuel_covers (digitsToNat F) F.length (Nat.pos_of_ne_zero hne) hmlt hlen
  simp only [fixedDec]
  rw [hfl]
  simp only [Int.cast_zero, sub_zero, Int.toNat_zero]
  rw [fracDigits_correct F hF _ hfuel,
    if_neg (dropTrailingZeros_nonnil_of_ne_zero F hne)]
  apply string_data_ext
  simp only [string_append_data]
  rfl

theorem fixedDec_int (m : ℕ) : fixedDec ((m : ℚ)) = toString m := by
  have hfl : ⌊(m : ℚ)⌋ = (m : ℤ) := Int.floor_natCast m
  simp only [fixedDec]
  rw [hfl]
  simp only [Int.cast_natCast, sub_self, Int.toNat_natCast]
  rw [fracDigits_zero, if_pos rfl]
  exact string_append_empty _

theorem jsRatToString_frac_pos (F : List Char)
    (hF : ∀ c ∈ F, 48 ≤ c.toNat ∧ c.toNat ≤ 57)
    (hne : digitsToNat F ≠ 0) (hlen : 4 ≤ F.length)
    (hmlt : digitsToNat F < 10 ^ 4)
    (hge : (1 : ℚ) / 1000000 ≤ (digitsToNat F : ℚ) / 10 ^ F.length) :
    jsRatToString ((digitsToNat F : ℚ) / 10 ^ F.length) =
      "0." ++ String.mk (dropTrailingZeros F) := by
  have hpos : (0 : ℚ) < (digitsToNat F : ℚ) / 10 ^ F.length := by
    apply div_pos _ (by positivity)
    exact_mod_cast Nat.pos_of_ne_zero hne
  have hlt1 : (digitsToNat F : ℚ) / 10 ^ F.length < 1 := by
    rw [div_lt_one (by positivity)]
    exact_mod_cast digitsToNat_lt F (fun c hc => (hF c hc).2)
  simp only [jsRatToString]
  rw [if_neg (ne_of_gt hpos), if_neg (not_lt.mpr (le_of_lt hpos)),
    mathAbs_of_pos _ hpos,
    if_neg (not_le.mpr (lt_of_lt_of_le hlt1 (by norm_num))),
    if_neg (not_lt.mpr hge),
    fixedDec_frac F hF hne hlen hmlt]
  exact string_empty_append _

theorem jsRatToString_frac_neg (F : List Char)
    (hF : ∀ c ∈ F, 48 ≤ c.toNat ∧ c.toNat ≤ 57)
    (hne : digitsToNat F ≠ 0) (hlen : 4 ≤ F.length)
    (hmlt : digitsToNat F < 10 ^ 4)
    (hge : (1 : ℚ) / 1000000 ≤ (digitsToNat F : ℚ) / 10 ^ F.length) :
    jsRatToString (-((digitsToNat F : ℚ) / 10 ^ F.length)) =
      "-0." ++ String.mk (dropTrailingZeros F) := by
  have hpos : (0 : ℚ) < (digitsToNat F : ℚ) / 10 ^ F.length := by
    apply div_pos _ (by positivity)
    exact_mod_cast Nat.pos_of_ne_zero hne
  have hlt1 : (digitsToNat F : ℚ) / 10 ^ F.length < 1 := by
    rw [div_lt_one (by positivity)]
    exact_mod_cast digitsToNat_lt F (fun c hc => (hF c hc).2)
  have hneg : -((digitsToNat F : ℚ) / 10 ^ F.length) < 0 := by linarith
  simp only [jsRatToString]
  rw [if_neg (show ¬(-((digitsToNat F : ℚ) / 10 ^ F.length) = 0) from by
        intro h
        exact absurd (neg_eq_zero.mp h) (ne_of_gt hpos)),
    mathAbs_of_neg _ hneg, neg_neg, if_pos hneg,
    if_neg (not_le.mpr (lt_of_lt_of_le hlt1
      (show (1 : ℚ) ≤ 10 ^ (21 : ℕ) from by norm_num))),
    if_neg (not_lt.mpr hge),
    fixedDec_frac F hF hne hlen hmlt]
  apply string_data_ext
  simp only [string_append_data]
  rfl


theorem toString_four (m : ℕ) (h1 : 1000 ≤ m) (h2 : m < 10000) :
    ∃ d1 D', (toString m).data = d1 :: D' ∧ D'.length = 3 ∧
      49 ≤ d1.toNat ∧ d1.toNat ≤ 57 ∧
      (∀ c ∈ D', 48 ≤ c.toNat ∧ c.toNat ≤ 57) ∧
      (d1.toNat - 48) * 1000 + digitsToNat D' = m := by
  have hub : (toString m).length ≤ 4 := toString_nat_length_le m 4 (by omega) (by omega)
  have hlb := toString_nat_lt m
  have hlen : (toString m).length = 4 := by
    by_contra hne
    have hle3 : (toString m).length ≤ 3 := by omega
    have : m < 10 ^ 3 :=
      lt_of_lt_of_le hlb (Nat.pow_le_pow_right (by omega) hle3)
    omega
  have hdlen : (toString m).data.length = 4 := hlen
  obtain ⟨d1, D', hcons⟩ : ∃ d1 D', (toString m).data = d1 :: D' := by
    cases h : (toString m).data with
    | nil => rw [h] at hdlen; simp at hdlen
    | cons a l => exact ⟨a, l, rfl⟩
  have hD'len : D'.length = 3 := by
    rw [hcons] at hdlen
    simpa using hdlen
  have hdig : ∀ c ∈ d1 :: D', 48 ≤ c.toNat ∧ c.toNat ≤ 57 := by
    rw [← hcons, toString_nat_data]
    exact toDigits_all_digits m
  have hhead : 49 ≤ d1.toNat := by
    apply toDigits_head_lower m (by omega) d1
    rw [← toString_nat_data, hcons]
    rfl
  have hvalfull : digitsToNat (d1 :: D') = m := by
    rw [← hcons, toString_nat_data]
    exact toDigits_digitsToNat m
  rw [digitsToNat_cons, hD'len] at hvalfull
  refine ⟨d1, D', hcons, hD'len, hhead, (hdig d1 (by simp)).2,
    fun c hc => hdig c (by simp [hc]), ?_⟩
  rw [← hvalfull]
  norm_num

theorem fracFuel_ge_three (d : ℕ) : 3 ≤ fracFuel d := by
  rw [fracFuel]
  have := toString_nat_length_pos d
  omega

theorem expDigits_four (m : ℕ) (d1 : Char) (D' : List Char)
    (h1 : 1000 ≤ m) (h2 : m < 10000)
    (hds : (toString m).data = d1 :: D') (hD'len : D'.length = 3)
    (hd1 : 49 ≤ d1.toNat ∧ d1.toNat ≤ 57)
    (hD' : ∀ c ∈ D', 48 ≤ c.toNat ∧ c.toNat ≤ 57)
    (hval : (d1.toNat - 48) * 1000 + digitsToNat D' = m) :
    expDigits ((m : ℚ) / 10 ^ (3 : ℕ)) =
      String.mk [d1] ++ (if dropTrailingZeros D' = [] then ""
        else "." ++ String.mk (dropTrailingZeros D')) := by
  have hr : digitsToNat D' < 1000 := by
    have := digitsToNat_lt D' (fun c hc => (hD' c hc).2)
    rw [hD'len] at this
    norm_num at this
    exact this
  have hten : ((10 : ℚ) ^ (3 : ℕ)) = ((1000 : ℕ) : ℚ) := by norm_num
  have hfl : ⌊(m : ℚ) / 10 ^ (3 : ℕ)⌋ = ((m / 1000 : ℕ) : ℤ) := by
    rw [hten]
    exact Rat.floor_natCast_div_natCast m 1000
  have hdiv : m / 1000 = d1.toNat - 48 := by omega
  have hm : (m : ℚ) = ((d1.toNat - 48 : ℕ) : ℚ) * 1000 + (digitsToNat D' : ℚ) := by
    exact_mod_cast (congrArg (fun x : ℕ => (x : ℚ)) hval).symm
  have hfrac : (m : ℚ) / 10 ^ (3 : ℕ) - ((d1.toNat - 48 : ℕ) : ℚ) =
      (digitsToNat D' : ℚ) / 10 ^ D'.length := by
    rw [hD'len, hm]
    field_simp
    ring
  have hfuel : D'.length ≤ fracFuel ((m : ℚ) / 10 ^ (3 : ℕ)).den := by
    rw [hD'len]
    exact fracFuel_ge_three _
  have hsingle : toString (d1.toNat - 48) = String.mk [d1] := by
    apply string_data_ext
    rw [toString_nat_data, toDigits_small _ (by omega)]
    have hdc := digitChar_toNat (d1.toNat - 48) (by omega)
    have hchar : Nat.digitChar (d1.toNat - 48) = d1 := by
      calc Nat.digitChar (d1.toNat - 48)
          = Char.ofNat (Nat.digitChar (d1.toNat - 48)).toNat :=
            (Char.ofNat_toNat _).symm
        _ = Char.ofNat d1.toNat := by rw [hdc]; congr 1; omega
        _ = d1 := Char.ofNat_toNat d1
    rw [hchar]
  simp only [expDigits]
  rw [hfl]
  simp only [Int.toNat_natCast, Int.cast_natCast]
  rw [hdiv, hfrac, fracDigits_correct D' hD' _ hfuel, hsingle]

theorem expFormSmall_shape (m k' : ℕ) (d1 : Char) (D' : List Char)
    (h1 : 1000 ≤ m) (h2 : m < 10000) (hk : 7 ≤ k')
    (hds : (toString m).data = d1 :: D') (hD'len : D'.length = 3)
    (hd1 : 49 ≤ d1.toNat ∧ d1.toNat ≤ 57)
    (hD' : ∀ c ∈ D', 48 ≤ c.toNat ∧ c.toNat ≤ 57)
    (hval : (d1.toNat - 48) * 1000 + digitsToNat D' = m) :
    expFormSmall ((m : ℚ) / 10 ^ (k' + 3)) =
      String.mk [d1] ++ (if dropTrailingZeros D' = [] then ""
        else "." ++ String.mk (dropTrailingZeros D')) ++ "e-" ++ toString k' := by
  have hpos : (0 : ℚ) < (m : ℚ) / 10 ^ (k' + 3) :=
    div_pos (by exact_mod_cast (by omega : 0 < m)) (by positivity)
  have hlt1 : (m : ℚ) / 10 ^ (k' + 3) < 1 := by
    rw [div_lt_one (by positivity)]
    calc (m : ℚ) < ((10000 : ℕ) : ℚ) := by exact_mod_cast h2
      _ ≤ 10 ^ (k' + 3) := by
          have hnat : (10000 : ℕ) ≤ 10 ^ (k' + 3) := by
            calc (10000 : ℕ) = 10 ^ 4 := by norm_num
              _ ≤ 10 ^ (k' + 3) := Nat.pow_le_pow_right (by omega) (by omega)
          exact_mod_cast hnat
  have hval10 : (m : ℚ) / 10 ^ (k' + 3) * 10 ^ k' = (m : ℚ) / 10 ^ (3 : ℕ) := by
    rw [pow_add]
    have h10 : ((10 : ℚ) ^ k') ≠ 0 := by positivity
    field_simp
    ring
  have hcore1 : 1 ≤ (m : ℚ) / 10 ^ (k' + 3) * 10 ^ k' := by
    rw [hval10, le_div_iff (by positivity)]
    calc (1 : ℚ) * 10 ^ (3 : ℕ) = ((1000 : ℕ) : ℚ) := by norm_num
      _ ≤ m := by exact_mod_cast h1
  have hcore2 : (m : ℚ) / 10 ^ (k' + 3) * 10 ^ k' < 10 := by
    rw [hval10, div_lt_iff (by positivity)]
    calc (m : ℚ) < ((10000 : ℕ) : ℚ) := by exact_mod_cast h2
      _ = 10 * 10 ^ (3 : ℕ) := by norm_num
  obtain ⟨hA1, hA2, hA3⟩ := ratLog10Neg_correct
    (fracFuel ((m : ℚ) / 10 ^ (k' + 3)).den) ((m : ℚ) / 10 ^ (k' + 3))
    hpos hlt1 (ratLog10Neg_fuel_ok _ hpos)
  have hkk : ratLog10Neg ((m : ℚ) / 10 ^ (k' + 3))
      (fracFuel ((m : ℚ) / 10 ^ (k' + 3)).den) = k' :=
    log_unique _ _ _ hA1 hA2 hcore1 hcore2
  simp only [expFormSmall]
  rw [hkk, hval10, expDigits_four m d1 D' h1 h2 hds hD'len hd1 hD' hval]

theorem jsRatToString_exp_pos (m k' : ℕ) (d1 : Char) (D' : List Char)
    (h1 : 1000 ≤ m) (h2 : m < 10000) (hk : 7 ≤ k')
    (hds : (toString m).data = d1 :: D') (hD'len : D'.length = 3)
    (hd1 : 49 ≤ d1.toNat ∧ d1.toNat ≤ 57)
    (hD' : ∀ c ∈ D', 48 ≤ c.toNat ∧ c.toNat ≤ 57)
    (hval : (d1.toNat - 48) * 1000 + digitsToNat D' = m) :
    jsRatToString ((m : ℚ) / 10 ^ (k' + 3)) =
      String.mk [d1] ++ (if dropTrailingZeros D' = [] then ""
        else "." ++ String.mk (dropTrailingZeros D')) ++ "e-" ++ toString k' := by
  have hpos : (0 : ℚ) < (m : ℚ) / 10 ^ (k' + 3) :=
    div_pos (by exact_mod_cast (by omega : 0 < m)) (by positivity)
  have hlt1 : (m : ℚ) / 10 ^ (k' + 3) < 1 := by
    rw [div_lt_one (by positivity)]
    calc (m : ℚ) < ((10000 : ℕ) : ℚ) := by exact_mod_cast h2
      _ ≤ 10 ^ (k' + 3) := by
          have hnat : (10000 : ℕ) ≤ 10 ^ (k' + 3) := by
            calc (10000 : ℕ) = 10 ^ 4 := by norm_num
              _ ≤ 10 ^ (k' + 3) := Nat.pow_le_pow_right (by omega) (by omega)
          exact_mod_cast hnat
  have hlt6 : (m : ℚ) / 10 ^ (k' + 3) < 1 / 1000000 := by
    rw [div_lt_div_iff (by positivity) (by norm_num)]
    have hnat : m * 1000000 < 10 ^ (k' + 3) := by
      calc m * 1000000 < 10000 * 1000000 := by omega
        _ = 10 ^ 10 := by norm_num
        _ ≤ 10 ^ (k' + 3) := Nat.pow_le_pow_right (by omega) (by omega)
    calc (m : ℚ) * 1000000 < 10 ^ (k' + 3) := by exact_mod_cast hnat
      _ = 1 * 10 ^ (k' + 3) := by ring
  simp only [jsRatToString]
  rw [if_neg (ne_of_gt hpos), if_neg (not_lt.mpr (le_of_lt hpos)),
    mathAbs_of_pos _ hpos,
    if_neg (not_le.mpr (lt_of_lt_of_le hlt1
      (show (1 : ℚ) ≤ 10 ^ (21 : ℕ) from by norm_num))),
    if_pos hlt6,
    expFormSmall_shape m k' d1 D' h1 h2 hk hds hD'len hd1 hD' hval]
  exact string_empty_append _

theorem jsRatToString_exp_neg (m k' : ℕ) (d1 : Char) (D' : List Char)
    (h1 : 1000 ≤ m) (h2 : m < 10000) (hk : 7 ≤ k')
    (hds : (toString m).data = d1 :: D') (hD'len : D'.length = 3)
    (hd1 : 49 ≤ d1.toNat ∧ d1.toNat ≤ 57)
    (hD' : ∀ c ∈ D', 48 ≤ c.toNat ∧ c.toNat ≤ 57)
    (hval : (d1.toNat - 48) * 1000 + digitsToNat D' = m) :
    jsRatToString (-((m : ℚ) / 10 ^ (k' + 3))) =
      "-" ++ (String.mk [d1] ++ (if dropTrailingZeros D' = [] then ""
        else "." ++ String.mk (dropTrailingZeros D')) ++ "e-" ++ toString k') := by
  have hpos : (0 : ℚ) < (m : ℚ) / 10 ^ (k' + 3) :=
    div_pos (by exact_mod_cast (by omega : 0 < m)) (by positivity)
  have hneg : -((m : ℚ) / 10 ^ (k' + 3)) < 0 := by linarith
  have hlt1 : (m : ℚ) / 10 ^ (k' + 3) < 1 := by
    rw [div_lt_one (by positivity)]
    calc (m : ℚ) < ((10000 : ℕ) : ℚ) := by exact_mod_cast h2
      _ ≤ 10 ^ (k' + 3) := by
          have hnat : (10000 : ℕ) ≤ 10 ^ (k' + 3) := by
            calc (10000 : ℕ) = 10 ^ 4 := by norm_num
              _ ≤ 10 ^ (k' + 3) := Nat.pow_le_pow_right (by omega) (by omega)
          exact_mod_cast hnat
  have hlt6 : (m : ℚ) / 10 ^ (k' + 3) < 1 / 1000000 := by
    rw [div_lt_div_iff (by positivity) (by norm_num)]
    have hnat : m * 1000000 < 10 ^ (k' + 3) := by
      calc m * 1000000 < 10000 * 1000000 := by omega
        _ = 10 ^ 10 := by norm_num
        _ ≤ 10 ^ (k' + 3) := Nat.pow_le_pow_right (by omega) (by omega)
    calc (m : ℚ) * 1000000 < 10 ^ (k' + 3) := by exact_mod_cast hnat
      _ = 1 * 10 ^ (k' + 3) := by ring
  simp only [jsRatToString]
  rw [if_neg (show ¬(-((m : ℚ) / 10 ^ (k' + 3)) = 0) from by
        intro h
        exact absurd (neg_eq_zero.mp h) (ne_of_gt hpos)),
    mathAbs_of_neg _ hneg, neg_neg, if_pos hneg,
    if_neg (not_le.mpr (lt_of_lt_of_le hlt1
      (show (1 : ℚ) ≤ 10 ^ (21 : ℕ) from by norm_num))),
    if_pos hlt6,
    expFormSmall_shape m k' d1 D' h1 h2 hk hds hD'len hd1 hD' hval]


theorem dropTrailingZeros_id_of_last (l : List Char) (c : Char)
    (h : l.getLast? = some c) (hc : c ≠ '0') : dropTrailingZeros l = l := by
  have hh : ∀ b, l.reverse.head? = some b → isZeroChar b = false := by
    intro b hb
    rw [List.head?_reverse, h] at hb
    injection hb with hbc
    subst hbc
    simp [isZeroChar, hc]
  rw [dropTrailingZeros, dropWhile_id_of_head isZeroChar l.reverse hh,
    List.reverse_reverse]

theorem exists_getLast (l : List Char) (h : l ≠ []) : ∃ c, l.getLast? = some c :=
  ⟨l.getLast h, List.getLast?_eq_getLast_of_ne_nil h⟩

theorem no_e_digits (F : List Char)
    (hF : ∀ c ∈ F, 48 ≤ c.toNat ∧ c.toNat ≤ 57) : ∀ c ∈ F, ¬ c = 'e' := by
  intro c hc he
  subst he
  exact absurd (hF _ hc) (by decide)

theorem specSigStrip_no_e (l : List Char) (hl : ∀ c ∈ l, ¬ c = 'e') :
    specSigStrip (String.mk l) = String.mk (stripSpecAux l) := by
  simp only [specSigStrip]
  rw [List.takeWhile_eq_self_iff.mpr (fun c hc => by simpa using hl c hc),
    List.dropWhile_eq_nil_iff.mpr (fun c hc => by simpa using hl c hc),
    List.append_nil]

theorem specSigStrip_split (A B : List Char) (hA : ∀ c ∈ A, ¬ c = 'e') :
    specSigStrip (String.mk (A ++ 'e' :: B)) =
      String.mk (stripSpecAux A ++ 'e' :: B) := by
  simp only [specSigStrip]
  rw [List.takeWhile_append_of_pos (fun c hc => by simpa using hA c hc),
    List.takeWhile_cons_of_neg (by simp), List.append_nil,
    List.dropWhile_append_of_pos (fun c hc => by simpa using hA c hc),
    List.dropWhile_cons, if_neg (by simp)]

theorem stripSpecAux_pre (P F : List Char)
    (hF : ∀ c ∈ F, 48 ≤ c.toNat ∧ c.toNat ≤ 57)
    (hne : dropTrailingZeros F ≠ []) :
    stripSpecAux (P ++ F) = P ++ dropTrailingZeros F := by
  have hdtz := dropTrailingZeros_append P F hne
  obtain ⟨c, hc⟩ := exists_getLast (dropTrailingZeros F) hne
  have hcd : c ∈ F := dropTrailingZeros_sub F c (mem_of_getLast_some _ c hc)
  have hlast : (P ++ dropTrailingZeros F).getLast? = some c := by
    rw [List.getLast?_append_of_ne_nil _ hne, hc]
  simp only [stripSpecAux]
  rw [hdtz, hlast, if_neg (by
    intro h
    injection h with h2
    subst h2
    exact absurd (hF _ hcd) (by decide))]

theorem stripSpecAux_pre_zero (P D' : List Char)
    (hzero : dropTrailingZeros D' = []) (hlastP : P.getLast? = some '.') :
    stripSpecAux (P ++ D') = P.dropLast := by
  obtain ⟨z, hz⟩ := dropTrailingZeros_decomp D'
  rw [hzero, List.nil_append] at hz
  have hdtz : dropTrailingZeros (P ++ D') = dropTrailingZeros P := by
    rw [hz]
    exact dropTrailingZeros_append_zeros _ _
  have hid : dropTrailingZeros P = P :=
    dropTrailingZeros_id_of_last _ '.' hlastP (by decide)
  simp only [stripSpecAux]
  rw [hdtz, hid, hlastP, if_pos rfl]

theorem roundtrip_fix_pos (F : List Char)
    (hF : ∀ c ∈ F, 48 ≤ c.toNat ∧ c.toNat ≤ 57)
    (hne : digitsToNat F ≠ 0) (hlen : 4 ≤ F.length)
    (hmlt : digitsToNat F < 10 ^ 4)
    (hge : (1 : ℚ) / 1000000 ≤ (digitsToNat F : ℚ) / 10 ^ F.length) :
    jsNumToString (jsStringToNumber (String.mk ('0' :: '.' :: F))) =
      specSigStrip (String.mk ('0' :: '.' :: F)) := by
  have hdtzne : dropTrailingZeros F ≠ [] :=
    dropTrailingZeros_nonnil_of_ne_zero F hne
  rw [jsStringToNumber_fixed_pos '0' F (by decide) hF]
  rw [show (('0'.toNat - 48 : ℕ) : ℚ) = 0 from by
    rw [show ('0'.toNat - 48 : ℕ) = 0 from by decide]
    exact Nat.cast_zero]
  rw [zero_add]
  show jsRatToString _ = _
  rw [jsRatToString_frac_pos F hF hne hlen hmlt hge,
    specSigStrip_no_e _ (by
      intro c hc
      rcases List.mem_cons.mp hc with rfl | hc
      · decide
      rcases List.mem_cons.mp hc with rfl | hc
      · decide
      · exact no_e_digits F hF c hc),
    show ('0' :: '.' :: F) = ['0', '.'] ++ F from rfl,
    stripSpecAux_pre ['0', '.'] F hF hdtzne]
  apply string_data_ext
  rw [string_append_data]

theorem roundtrip_fix_neg (F : List Char)
    (hF : ∀ c ∈ F, 48 ≤ c.toNat ∧ c.toNat ≤ 57)
    (hne : digitsToNat F ≠ 0) (hlen : 4 ≤ F.length)
    (hmlt : digitsToNat F < 10 ^ 4)
    (hge : (1 : ℚ) / 1000000 ≤ (digitsToNat F : ℚ) / 10 ^ F.length) :
    jsNumToString (jsStringToNumber (String.mk ('-' :: '0' :: '.' :: F))) =
      specSigStrip (String.mk ('-' :: '0' :: '.' :: F)) := by
  have hdtzne : dropTrailingZeros F ≠ [] :=
    dropTrailingZeros_nonnil_of_ne_zero F hne
  rw [jsStringToNumber_fixed_neg '0' F (by decide) hF]
  rw [show (('0'.toNat - 48 : ℕ) : ℚ) = 0 from by
    rw [show ('0'.toNat - 48 : ℕ) = 0 from by decide]
    exact Nat.cast_zero]
  rw [zero_add]
  show jsRatToString _ = _
  rw [jsRatToString_frac_neg F hF hne hlen hmlt hge,
    specSigStrip_no_e _ (by
      intro c hc
      rcases List.mem_cons.mp hc with rfl | hc
      · decide
      rcases List.mem_cons.mp hc with rfl | hc
      · decide
      rcases List.mem_cons.mp hc with rfl | hc
      · decide
      · exact no_e_digits F hF c hc),
    show ('-' :: '0' :: '.' :: F) = ['-', '0', '.'] ++ F from rfl,
    stripSpecAux_pre ['-', '0', '.'] F hF hdtzne]
  apply string_data_ext
  rw [string_append_data]

theorem roundtrip_exp_pos (m k' : ℕ) (d1 : Char) (D' : List Char)
    (h1 : 1000 ≤ m) (h2 : m < 10000) (hk : 7 ≤ k')
    (hds : (toString m).data = d1 :: D') (hD'len : D'.length = 3)
    (hd1 : 49 ≤ d1.toNat ∧ d1.toNat ≤ 57)
    (hD' : ∀ c ∈ D', 48 ≤ c.toNat ∧ c.toNat ≤ 57)
    (hval : (d1.toNat - 48) * 1000 + digitsToNat D' = m) :
    jsNumToString (jsStringToNumber
        (String.mk (d1 :: '.' :: (D' ++ 'e' :: '-' :: (toString k').data)))) =
      specSigStrip
        (String.mk (d1 :: '.' :: (D' ++ 'e' :: '-' :: (toString k').data))) := by
  have hKdig : ∀ c ∈ (toString k').data, 48 ≤ c.toNat ∧ c.toNat ≤ 57 := by
    rw [toString_nat_data]
    exact toDigits_all_digits k'
  have hKne : (toString k').data ≠ [] := by
    rw [toString_nat_data]
    exact toDigits_ne_nil k'
  rw [jsStringToNumber_exp_pos d1 D' (toString k').data
    ⟨by omega, hd1.2⟩ hD' hKdig hKne]
  have hKval : digitsToNat ((toString k').data) = k' := by
    rw [toString_nat_data]
    exact toDigits_digitsToNat k'
  have hm : (m : ℚ) = ((d1.toNat - 48 : ℕ) : ℚ) * 1000 + (digitsToNat D' : ℚ) := by
    exact_mod_cast (congrArg (fun x : ℕ => (x : ℚ)) hval).symm
  have hvq : ((((d1.toNat - 48 : ℕ) : ℚ)) + (digitsToNat D' : ℚ) / 10 ^ D'.length) *
      (10 : ℚ) ^ (-(digitsToNat ((toString k').data) : ℤ)) =
      (m : ℚ) / 10 ^ (k' + 3) := by
    rw [hKval, hD'len, hm, zpow_neg, zpow_natCast, pow_add]
    field_simp
    ring
  rw [hvq]
  show jsRatToString _ = _
  rw [jsRatToString_exp_pos m k' d1 D' h1 h2 hk hds hD'len hd1 hD' hval,
    show (d1 :: '.' :: (D' ++ 'e' :: '-' :: (toString k').data)) =
      (d1 :: '.' :: D') ++ 'e' :: ('-' :: (toString k').data) from by simp,
    specSigStrip_split (d1 :: '.' :: D') ('-' :: (toString k').data) (by
      intro c hc
      rcases List.mem_cons.mp hc with rfl | hc
      · intro he
        subst he
        exact absurd hd1 (by decide)
      rcases List.mem_cons.mp hc with rfl | hc
      · decide
      · exact no_e_digits D' hD' c hc)]
  by_cases hdtz : dropTrailingZeros D' = []
  · rw [if_pos hdtz,
      show (d1 :: '.' :: D') = [d1, '.'] ++ D' from rfl,
      stripSpecAux_pre_zero [d1, '.'] D' hdtz rfl]
    apply string_data_ext
    simp only [string_append_data]
    rfl
  · rw [if_neg hdtz,
      show (d1 :: '.' :: D') = [d1, '.'] ++ D' from rfl,
      stripSpecAux_pre [d1, '.'] D' hD' hdtz]
    apply string_data_ext
    simp only [string_append_data, List.append_assoc]
    rfl

theorem roundtrip_exp_neg (m k' : ℕ) (d1 : Char) (D' : List Char)
    (h1 : 1000 ≤ m) (h2 : m < 10000) (hk : 7 ≤ k')
    (hds : (toString m).data = d1 :: D') (hD'len : D'.length = 3)
    (hd1 : 49 ≤ d1.toNat ∧ d1.toNat ≤ 57)
    (hD' : ∀ c ∈ D', 48 ≤ c.toNat ∧ c.toNat ≤ 57)
    (hval : (d1.toNat - 48) * 1000 + digitsToNat D' = m) :
    jsNumToString (jsStringToNumber
        (String.mk ('-' :: d1 :: '.' :: (D' ++ 'e' :: '-' :: (toString k').data)))) =
      specSigStrip
        (String.mk ('-' :: d1 :: '.' :: (D' ++ 'e' :: '-' :: (toString k').data))) := by
  have hKdig : ∀ c ∈ (toString k').data, 48 ≤ c.toNat ∧ c.toNat ≤ 57 := by
    rw [toString_nat_data]
    exact toDigits_all_digits k'
  have hKne : (toString k').data ≠ [] := by
    rw [toString_nat_data]
    exact toDigits_ne_nil k'
  rw [jsStringToNumber_exp_neg d1 D' (toString k').data
    ⟨by omega, hd1.2⟩ hD' hKdig hKne]
  have hKval : digitsToNat ((toString k').data) = k' := by
    rw [toString_nat_data]
    exact toDigits_digitsToNat k'
  have hm : (m : ℚ) = ((d1.toNat - 48 : ℕ) : ℚ) * 1000 + (digitsToNat D' : ℚ) := by
    exact_mod_cast (congrArg (fun x : ℕ => (x : ℚ)) hval).symm
  have hvq : ((((d1.toNat - 48 : ℕ) : ℚ)) + (digitsToNat D' : ℚ) / 10 ^ D'.length) *
      (10 : ℚ) ^ (-(digitsToNat ((toString k').data) : ℤ)) =
      (m : ℚ) / 10 ^ (k' + 3) := by
    rw [hKval, hD'len, hm, zpow_neg, zpow_natCast, pow_add]
    field_simp
    ring
  rw [hvq]
  show jsRatToString _ = _
  rw [jsRatToString_exp_neg m k' d1 D' h1 h2 hk hds hD'len hd1 hD' hval,
    show ('-' :: d1 :: '.' :: (D' ++ 'e' :: '-' :: (toString k').data)) =
      ('-' :: d1 :: '.' :: D') ++ 'e' :: ('-' :: (toString k').data) from by simp,
    specSigStrip_split ('-' :: d1 :: '.' :: D') ('-' :: (toString k').data) (by
      intro c hc
      rcases List.mem_cons.mp hc with rfl | hc
      · decide
      rcases List.mem_cons.mp hc with rfl | hc
      · intro he
        subst he
        exact absurd hd1 (by decide)
      rcases List.mem_cons.mp hc with rfl | hc
      · decide
      · exact no_e_digits D' hD' c hc)]
  by_cases hdtz : dropTrailingZeros D' = []
  · rw [if_pos hdtz,
      show ('-' :: d1 :: '.' :: D') = ['-', d1, '.'] ++ D' from rfl,
      stripSpecAux_pre_zero ['-', d1, '.'] D' hdtz rfl]
    apply string_data_ext
    simp only [string_append_data]
    rfl
  · rw [if_neg hdtz,
      show ('-' :: d1 :: '.' :: D') = ['-', d1, '.'] ++ D' from rfl,
      stripSpecAux_pre ['-', d1, '.'] D' hD' hdtz]
    apply string_data_ext
    simp only [string_append_data, List.append_assoc]
    rfl


theorem hge_frac_helper (M L : ℕ) (hM : 1000 ≤ M) (hL : L ≤ 9) :
    (1 : ℚ) / 1000000 ≤ (M : ℚ) / 10 ^ L := by
  rw [div_le_div_iff (by norm_num) (by positivity)]
  have hnat : 10 ^ L ≤ M * 1000000 := by
    calc 10 ^ L ≤ 10 ^ 9 := Nat.pow_le_pow_right (by omega) hL
      _ = 1000 * 1000000 := by norm_num
      _ ≤ M * 1000000 := Nat.mul_le_mul_right _ hM
  calc (1 : ℚ) * 10 ^ L = ((10 ^ L : ℕ) : ℚ) := by push_cast; ring
    _ ≤ ((M * 1000000 : ℕ) : ℚ) := by exact_mod_cast hnat
    _ = (M : ℚ) * 1000000 := by push_cast; ring

theorem digits_of_zeros_append (z : ℕ) (l : List Char)
    (hl : ∀ c ∈ l, 48 ≤ c.toNat ∧ c.toNat ≤ 57) :
    ∀ c ∈ List.replicate z '0' ++ l, 48 ≤ c.toNat ∧ c.toNat ≤ 57 := by
  intro c hc
  rcases List.mem_append.mp hc with hc | hc
  · have hc0 := List.eq_of_mem_replicate hc
    subst hc0
    exact ⟨by decide, by decide⟩
  · exact hl c hc

theorem toString_data_digits (n : ℕ) :
    ∀ c ∈ (toString n).data, 48 ≤ c.toNat ∧ c.toNat ≤ 57 := by
  rw [toString_nat_data]
  exact toDigits_all_digits n

theorem digitsToNat_toString (n : ℕ) : digitsToNat (toString n).data = n := by
  rw [toString_nat_data]
  exact toDigits_digitsToNat n


unseal Rat.mul Rat.add Rat.sub Rat.inv in
theorem precision_roundtrip (q : ℚ) (h1 : mathAbs q < 1) :
    jsNumToString (jsStringToNumber (toPrecision4 q)) =
      specSigStrip (toPrecision4 q) := by
  by_cases hq : q = 0
  · subst hq
    decide
  · have hapos : 0 < mathAbs q := mathAbs_pos q hq
    obtain ⟨hk1, hk2, hk3⟩ := ratLog10Neg_correct (fracFuel (mathAbs q).den)
      (mathAbs q) hapos h1 (ratLog10Neg_fuel_ok _ hapos)
    simp only [toPrecision4]
    rw [if_neg hq, if_neg (not_le.mpr h1)]
    set k := ratLog10Neg (mathAbs q) (fracFuel (mathAbs q).den) with hkd
    have harg : mathAbs q / (10 : ℚ) ^ ((-(k : ℤ)) - 3) =
        mathAbs q * 10 ^ (k + 3) := by
      rw [show (-(k : ℤ) - 3) = -(((k + 3 : ℕ) : ℤ)) from by push_cast; ring,
        zpow_neg, zpow_natCast]
      rw [div_eq_mul_inv, inv_inv]
    rw [harg]
    have h3q : ((10 : ℚ) ^ (3 : ℕ)) = 1000 := by norm_num
    have hsplit : mathAbs q * 10 ^ (k + 3) = (mathAbs q * 10 ^ k) * 1000 := by
      rw [pow_add, h3q]
      ring
    have hx1 : 1000 ≤ mathAbs q * 10 ^ (k + 3) := by
      rw [hsplit]
      nlinarith
    have hx2 : mathAbs q * 10 ^ (k + 3) < 10000 := by
      rw [hsplit]
      nlinarith
    set N := mathRound (mathAbs q * 10 ^ (k + 3)) with hNd
    have hN1 : 1000 ≤ N := by
      rw [hNd, mathRound]
      apply Int.le_floor.mpr
      push_cast
      linarith
    have hN2 : N ≤ 10000 := by
      have hlt : N < 10001 := by
        rw [hNd, mathRound, Int.floor_lt]
        push_cast
        linarith
      omega
    by_cases hsgn : q < 0
    · rw [if_pos hsgn]
      by_cases hbump : N = (10000 : ℤ)
      · rw [if_pos hbump, if_pos hbump,
          show ((1000 : ℤ)).toNat = 1000 from rfl]
        by_cases hk8 : 8 ≤ k
        · rw [if_pos (show (-(k : ℤ) + 1 < -6 ∨ (4 : ℤ) ≤ -(k : ℤ) + 1) from by
              left
              omega),
            if_neg (show ¬((0 : ℤ) ≤ -(k : ℤ) + 1) from by omega),
            show (-(-(k : ℤ) + 1)).toNat = k - 1 from by omega,
            show (toString (1000 : ℕ)).data = '1' :: ['0', '0', '0'] from by decide,
            show (('1' : Char) :: ['0', '0', '0']).take 1 = ['1'] from rfl,
            show (('1' : Char) :: ['0', '0', '0']).drop 1 = ['0', '0', '0'] from rfl]
          have hSl : ("-" ++ String.mk ['1'] ++ "." ++ String.mk ['0', '0', '0'] ++
              "e" ++ ("-" ++ toString (k - 1))) =
              String.mk ('-' :: '1' :: '.' ::
                (['0', '0', '0'] ++ 'e' :: '-' :: (toString (k - 1)).data)) := by
            apply string_data_ext
            simp only [string_append_data, List.append_assoc]
            rfl
          rw [hSl]
          exact roundtrip_exp_neg 1000 (k - 1) '1' ['0', '0', '0'] (by norm_num)
            (by norm_num) (by omega) (by decide) rfl ⟨by decide, by decide⟩
            (by decide) (by decide)
        · by_cases hk1 : k = 1
          · rw [hk1]
            decide
          · rw [if_neg (show ¬(-(k : ℤ) + 1 < -6 ∨ (4 : ℤ) ≤ -(k : ℤ) + 1) from by
                omega),
              if_neg (show ¬((0 : ℤ) ≤ -(k : ℤ) + 1) from by omega),
              show (-(-(k : ℤ) + 1) - 1).toNat = k - 2 from by omega]
            have hlen1000 : ((toString (1000 : ℕ)).data).length = 4 := by decide
            have hSl : ("-" ++ "0." ++ String.mk (List.replicate (k - 2) '0') ++
                String.mk (toString (1000 : ℕ)).data) =
                String.mk ('-' :: '0' :: '.' ::
                  (List.replicate (k - 2) '0' ++ (toString (1000 : ℕ)).data)) := by
              apply string_data_ext
              simp only [string_append_data, List.append_assoc]
              rfl
            rw [hSl]
            have hdF : digitsToNat
                (List.replicate (k - 2) '0' ++ (toString (1000 : ℕ)).data) = 1000 := by
              rw [digitsToNat_zeros_append, digitsToNat_toString]
            have hlenF : (List.replicate (k - 2) '0' ++
                (toString (1000 : ℕ)).data).length = k + 2 := by
              rw [List.length_append, List.length_replicate, hlen1000]
              omega
            exact roundtrip_fix_neg _
              (digits_of_zeros_append _ _ (toString_data_digits 1000))
              (by rw [hdF]; norm_num) (by rw [hlenF]; omega)
              (by rw [hdF]; norm_num)
              (by
                rw [hdF, hlenF]
                exact hge_frac_helper 1000 (k + 2) (by norm_num) (by omega))
      · rw [if_neg hbump, if_neg hbump]
        obtain ⟨d1, D', hcons, hD'len, hh1, hh2, hDdig, hvald⟩ :=
          toString_four N.toNat (by omega) (by omega)
        by_cases hk7 : 7 ≤ k
        · rw [if_pos (show (-(k : ℤ) < -6 ∨ (4 : ℤ) ≤ -(k : ℤ)) from by
              left
              omega),
            if_neg (show ¬((0 : ℤ) ≤ -(k : ℤ)) from by omega),
            show (-(-(k : ℤ))).toNat = k from by omega,
            hcons,
            show (d1 :: D').take 1 = [d1] from rfl,
            show (d1 :: D').drop 1 = D' from rfl]
          have hSl : ("-" ++ String.mk [d1] ++ "." ++ String.mk D' ++ "e" ++
              ("-" ++ toString k)) =
              String.mk ('-' :: d1 :: '.' :: (D' ++ 'e' :: '-' :: (toString k).data)) := by
            apply string_data_ext
            simp only [string_append_data, List.append_assoc]
            rfl
          rw [hSl]
          exact roundtrip_exp_neg N.toNat k d1 D' (by omega) (by omega) hk7 hcons
            hD'len ⟨hh1, hh2⟩ hDdig hvald
        · rw [if_neg (show ¬(-(k : ℤ) < -6 ∨ (4 : ℤ) ≤ -(k : ℤ)) from by omega),
            if_neg (show ¬((0 : ℤ) ≤ -(k : ℤ)) from by omega),
            show (-(-(k : ℤ)) - 1).toNat = k - 1 from by omega]
          have hlen4 : ((toString N.toNat).data).length = 4 := by
            rw [hcons]
            simp [hD'len]
          have hSl : ("-" ++ "0." ++ String.mk (List.replicate (k - 1) '0') ++
              String.mk (toString N.toNat).data) =
              String.mk ('-' :: '0' :: '.' ::
                (List.replicate (k - 1) '0' ++ (toString N.toNat).data)) := by
            apply string_data_ext
            simp only [string_append_data, List.append_assoc]
            rfl
          rw [hSl]
          have hdF : digitsToNat
              (List.replicate (k - 1) '0' ++ (toString N.toNat).data) = N.toNat := by
            rw [digitsToNat_zeros_append, digitsToNat_toString]
          have hlenF : (List.replicate (k - 1) '0' ++
              (toString N.toNat).data).length = k + 3 := by
            rw [List.length_append, List.length_replicate, hlen4]
            omega
          exact roundtrip_fix_neg _
            (digits_of_zeros_append _ _ (toString_data_digits N.toNat))
            (by rw [hdF]; omega) (by rw [hlenF]; omega)
            (by
              rw [hdF]
              have h104 : (10 : ℕ) ^ 4 = 10000 := by norm_num
              rw [h104]
              omega)
            (by
              rw [hdF, hlenF]
              exact hge_frac_helper N.toNat (k + 3) (by omega) (by omega))
    · rw [if_neg hsgn]
      by_cases hbump : N = (10000 : ℤ)
      · rw [if_pos hbump, if_pos hbump,
          show ((1000 : ℤ)).toNat = 1000 from rfl]
        by_cases hk8 : 8 ≤ k
        · rw [if_pos (show (-(k : ℤ) + 1 < -6 ∨ (4 : ℤ) ≤ -(k : ℤ) + 1) from by
              left
              omega),
            if_neg (show ¬((0 : ℤ) ≤ -(k : ℤ) + 1) from by omega),
            show (-(-(k : ℤ) + 1)).toNat = k - 1 from by omega,
            show (toString (1000 : ℕ)).data = '1' :: ['0', '0', '0'] from by decide,
            show (('1' : Char) :: ['0', '0', '0']).take 1 = ['1'] from rfl,
            show (('1' : Char) :: ['0', '0', '0']).drop 1 = ['0', '0', '0'] from rfl]
          have hSl : ("" ++ String.mk ['1'] ++ "." ++ String.mk ['0', '0', '0'] ++
              "e" ++ ("-" ++ toString (k - 1))) =
              String.mk ('1' :: '.' ::
                (['0', '0', '0'] ++ 'e' :: '-' :: (toString (k - 1)).data)) := by
            apply string_data_ext
            simp only [string_append_data, List.append_assoc]
            rfl
          rw [hSl]
          exact roundtrip_exp_pos 1000 (k - 1) '1' ['0', '0', '0'] (by norm_num)
            (by norm_num) (by omega) (by decide) rfl ⟨by decide, by decide⟩
            (by decide) (by decide)
        · by_cases hk1 : k = 1
          · rw [hk1]
            decide
          · rw [if_neg (show ¬(-(k : ℤ) + 1 < -6 ∨ (4 : ℤ) ≤ -(k : ℤ) + 1) from by
                omega),
              if_neg (show ¬((0 : ℤ) ≤ -(k : ℤ) + 1) from by omega),
              show (-(-(k : ℤ) + 1) - 1).toNat = k - 2 from by omega]
            have hlen1000 : ((toString (1000 : ℕ)).data).length = 4 := by decide
            have hSl : ("" ++ "0." ++ String.mk (List.replicate (k - 2) '0') ++
                String.mk (toString (1000 : ℕ)).data) =
                String.mk ('0' :: '.' ::
                  (List.replicate (k - 2) '0' ++ (toString (1000 : ℕ)).data)) := by
              apply string_data_ext
              simp only [string_append_data, List.append_assoc]
              rfl
            rw [hSl]
            have hdF : digitsToNat
                (List.replicate (k - 2) '0' ++ (toString (1000 : ℕ)).data) = 1000 := by
              rw [digitsToNat_zeros_append, digitsToNat_toString]
            have hlenF : (List.replicate (k - 2) '0' ++
                (toString (1000 : ℕ)).data).length = k + 2 := by
              rw [List.length_append, List.length_replicate, hlen1000]
              omega
            exact roundtrip_fix_pos _
              (digits_of_zeros_append _ _ (toString_data_digits 1000))
              (by rw [hdF]; norm_num) (by rw [hlenF]; omega)
              (by rw [hdF]; norm_num)
              (by
                rw [hdF, hlenF]
                exact hge_frac_helper 1000 (k + 2) (by norm_num) (by omega))
      · rw [if_neg hbump, if_neg hbump]
        obtain ⟨d1, D', hcons, hD'len, hh1, hh2, hDdig, hvald⟩ :=
          toString_four N.toNat (by omega) (by omega)
        by_cases hk7 : 7 ≤ k
        · rw [if_pos (show (-(k : ℤ) < -6 ∨ (4 : ℤ) ≤ -(k : ℤ)) from by
              left
              omega),
            if_neg (show ¬((0 : ℤ) ≤ -(k : ℤ)) from by omega),
            show (-(-(k : ℤ))).toNat = k from by omega,
            hcons,
            show (d1 :: D').take 1 = [d1] from rfl,
            show (d1 :: D').drop 1 = D' from rfl]
          have hSl : ("" ++ String.mk [d1] ++ "." ++ String.mk D' ++ "e" ++
              ("-" ++ toString k)) =
              String.mk (d1 :: '.' :: (D' ++ 'e' :: '-' :: (toString k).data)) := by
            apply string_data_ext
            simp only [string_append_data, List.append_assoc]
            rfl
          rw [hSl]
          exact roundtrip_exp_pos N.toNat k d1 D' (by omega) (by omega) hk7 hcons
            hD'len ⟨hh1, hh2⟩ hDdig hvald
        · rw [if_neg (show ¬(-(k : ℤ) < -6 ∨ (4 : ℤ) ≤ -(k : ℤ)) from by omega),
            if_neg (show ¬((0 : ℤ) ≤ -(k : ℤ)) from by omega),
            show (-(-(k : ℤ)) - 1).toNat = k - 1 from by omega]
          have hlen4 : ((toString N.toNat).data).length = 4 := by
            rw [hcons]
            simp [hD'len]
          have hSl : ("" ++ "0." ++ String.mk (List.replicate (k - 1) '0') ++
              String.mk (toString N.toNat).data) =
              String.mk ('0' :: '.' ::
                (List.replicate (k - 1) '0' ++ (toString N.toNat).data)) := by
            apply string_data_ext
            simp only [string_append_data, List.append_assoc]
            rfl
          rw [hSl]
          have hdF : digitsToNat
              (List.replicate (k - 1) '0' ++ (toString N.toNat).data) = N.toNat := by
            rw [digitsToNat_zeros_append, digitsToNat_toString]
          have hlenF : (List.replicate (k - 1) '0' ++
              (toString N.toNat).data).length = k + 3 := by
            rw [List.length_append, List.length_replicate, hlen4]
            omega
          exact roundtrip_fix_pos _
            (digits_of_zeros_append _ _ (toString_data_digits N.toNat))
            (by rw [hdF]; omega) (by rw [hlenF]; omega)
            (by
              rw [hdF]
              have h104 : (10 : ℕ) ^ 4 = 10000 := by norm_num
              rw [h104]
              omega)
            (by
              rw [hdF, hlenF]
              exact hge_frac_helper N.toNat (k + 3) (by omega) (by omega))


theorem stripDotZerosSuffix_no_dot (s : String) (h : '.' ∉ s.data) :
    stripDotZerosSuffix s = s := by
  simp only [stripDotZerosSuffix]
  rw [if_neg]
  rintro ⟨-, hhead⟩
  have hmem : '.' ∈ s.data.reverse.dropWhile (fun c => c = '0') :=
    List.mem_of_mem_head? (by simp [hhead])
  have hmem2 : '.' ∈ s.data.reverse := (List.dropWhile_sublist _).subset hmem
  exact h (List.mem_reverse.mp hmem2)

theorem stripTrailingZerosAfterDot_no_dot (s : String) (h : '.' ∉ s.data) :
    stripTrailingZerosAfterDot s = s := by
  simp only [stripTrailingZerosAfterDot]
  rw [if_neg]
  rintro ⟨-, hhead⟩
  have hmem : '.' ∈ (s.data.reverse.dropWhile (fun c => c = '0')).dropWhile
      Char.isDigit :=
    List.mem_of_mem_head? (by simp [hhead])
  have hmem2 : '.' ∈ s.data.reverse :=
    (List.dropWhile_sublist _).subset ((List.dropWhile_sublist _).subset hmem)
  exact h (List.mem_reverse.mp hmem2)

theorem no_dot_of_sign_digits (A I : List Char) (hA : ∀ c ∈ A, c = '-')
    (hI : ∀ c ∈ I, 48 ≤ c.toNat ∧ c.toNat ≤ 57) : '.' ∉ A ++ I := by
  intro hmem
  rcases List.mem_append.mp hmem with hm | hm
  · exact absurd (hA _ hm) (by decide)
  · exact absurd (hI _ hm) (by decide)

theorem strips_fixed (A I P : List Char) (hA : ∀ c ∈ A, c = '-')
    (hIdig : ∀ c ∈ I, 48 ≤ c.toNat ∧ c.toNat ≤ 57)
    (hPne : P ≠ []) (hPdig : ∀ c ∈ P, 48 ≤ c.toNat ∧ c.toNat ≤ 57) :
    stripTrailingZerosAfterDot (stripDotZerosSuffix
        (String.mk (A ++ I ++ '.' :: P))) =
      String.mk (A ++ I ++ (if dropTrailingZeros P = [] then []
        else '.' :: dropTrailingZeros P)) := by
  have hpe : (fun c : Char => decide (c = '0')) = isZeroChar := rfl
  have hPrev : (A ++ I ++ '.' :: P).reverse =
      P.reverse ++ '.' :: (I.reverse ++ A.reverse) := by
    rw [List.reverse_append, List.reverse_append, List.reverse_cons]
    simp [List.append_assoc]
  by_cases hz : dropTrailingZeros P = []
  · obtain ⟨z, hPz⟩ := dropTrailingZeros_decomp P
    rw [hz, List.nil_append] at hPz
    have hzpos : 1 ≤ z := by
      rcases Nat.eq_zero_or_pos z with h0 | h0
      · rw [h0] at hPz
        simp at hPz
        exact absurd hPz hPne
      · exact h0
    have hdw : (P.reverse ++ '.' :: (I.reverse ++ A.reverse)).dropWhile isZeroChar
        = '.' :: (I.reverse ++ A.reverse) := by
      rw [hPz, List.reverse_replicate,
        List.dropWhile_append_of_pos (fun c hc => by
          rw [List.eq_of_mem_replicate hc]
          decide),
        List.dropWhile_cons, if_neg (by decide)]
    have hstep1 : stripDotZerosSuffix (String.mk (A ++ I ++ '.' :: P)) =
        String.mk (A ++ I) := by
      simp only [stripDotZerosSuffix]
      rw [hpe, hPrev, hdw]
      rw [if_pos ⟨by
        rw [hPz]
        simp [List.length_replicate]
        omega, rfl⟩]
      apply string_data_ext
      show ((('.' :: (I.reverse ++ A.reverse)).drop 1).reverse) = A ++ I
      rw [List.drop_one, List.tail_cons, List.reverse_append,
        List.reverse_reverse, List.reverse_reverse]
    rw [hstep1, stripTrailingZerosAfterDot_no_dot _ (no_dot_of_sign_digits A I hA hIdig),
      if_pos hz]
    apply string_data_ext
    show A ++ I = A ++ I ++ []
    rw [List.append_nil]
  · have hrevne : P.reverse.dropWhile isZeroChar ≠ [] := by
      intro he
      exact hz (by rw [dropTrailingZeros, he, List.reverse_nil])
    have hdtzrev : P.reverse.dropWhile isZeroChar = (dropTrailingZeros P).reverse := by
      rw [dropTrailingZeros, List.reverse_reverse]
    obtain ⟨c, hchead⟩ : ∃ c, (P.reverse.dropWhile isZeroChar).head? = some c := by
      cases hh : (P.reverse.dropWhile isZeroChar).head? with
      | none => exact absurd (List.head?_eq_none_iff.mp hh) hrevne
      | some c => exact ⟨c, rfl⟩
    have hcz : isZeroChar c = false := head_dropWhile_not _ _ _ hchead
    have hcmem : c ∈ P := by
      have h1 : c ∈ P.reverse.dropWhile isZeroChar :=
        List.mem_of_mem_head? (by simp [hchead])
      exact List.mem_reverse.mp ((List.dropWhile_sublist _).subset h1)
    have hcdig := hPdig c hcmem
    have hcne : ¬ c = '.' := by
      intro h
      subst h
      exact absurd hcdig (by decide)
    have hdw : (P.reverse ++ '.' :: (I.reverse ++ A.reverse)).dropWhile isZeroChar
        = (P.reverse.dropWhile isZeroChar) ++ '.' :: (I.reverse ++ A.reverse) :=
      dropWhile_append_neg _ _ _ hrevne
    have hheadr : ((P.reverse.dropWhile isZeroChar) ++
        '.' :: (I.reverse ++ A.reverse)).head? = some c := by
      rw [List.head?_append_of_ne_nil _ hrevne]
      exact hchead
    have hstep1 : stripDotZerosSuffix (String.mk (A ++ I ++ '.' :: P)) =
        String.mk (A ++ I ++ '.' :: P) := by
      simp only [stripDotZerosSuffix]
      rw [hpe, hPrev, hdw]
      rw [if_neg]
      rintro ⟨-, hhead⟩
      rw [hheadr] at hhead
      injection hhead with hcc
      exact hcne hcc
    rw [hstep1]
    simp only [stripTrailingZerosAfterDot]
    rw [hpe]
    rw [hPrev, hdw]
    by_cases hfull : dropTrailingZeros P = P
    · have hPdw : P.reverse.dropWhile isZeroChar = P.reverse := by
        rw [hdtzrev, hfull]
      rw [if_neg (by
        rintro ⟨hlen, -⟩
        rw [hPdw] at hlen
        simp at hlen)]
      rw [if_neg hz]
      apply string_data_ext
      show A ++ I ++ '.' :: P = A ++ I ++ '.' :: dropTrailingZeros P
      rw [hfull]
    · obtain ⟨z, hPz⟩ := dropTrailingZeros_decomp P
      have hzpos : 1 ≤ z := by
        rcases Nat.eq_zero_or_pos z with h0 | h0
        · rw [h0] at hPz
          simp at hPz
          exact absurd hPz.symm hfull
        · exact h0
      have hlendtz : (dropTrailingZeros P).length + z = P.length := by
        conv_rhs => rw [hPz]
        simp [List.length_append, List.length_replicate]
      rw [if_pos ⟨by
          rw [hdtzrev]
          simp only [List.length_append, List.length_cons, List.length_reverse]
          omega, by
          rw [List.dropWhile_append_of_pos (fun b hb => by
            have hbm : b ∈ P := by
              have h1 : b ∈ P.reverse.dropWhile isZeroChar := hb
              exact List.mem_reverse.mp ((List.dropWhile_sublist _).subset h1)
            exact (char_isDigit_iff b).mpr (hPdig b hbm)),
            List.dropWhile_cons, if_neg (by decide)]
          rfl⟩]
      rw [if_neg hz]
      apply string_data_ext
      show (((P.reverse.dropWhile isZeroChar) ++
          '.' :: (I.reverse ++ A.reverse)).reverse) =
        A ++ I ++ '.' :: dropTrailingZeros P
      rw [List.reverse_append, hdtzrev, List.reverse_reverse, List.reverse_cons,
        List.reverse_append, List.reverse_reverse, List.reverse_reverse]
      simp [List.append_assoc]


theorem jsRatToString_int_pos (m : ℕ) (h1 : 1 ≤ m) (h2 : m < 10 ^ 21) :
    jsRatToString ((m : ℚ)) = toString m := by
  have hpos : (0 : ℚ) < m := by exact_mod_cast (by omega : 0 < m)
  simp only [jsRatToString]
  rw [if_neg (ne_of_gt hpos), if_neg (not_lt.mpr (le_of_lt hpos)),
    mathAbs_of_pos _ hpos,
    if_neg (show ¬ (10 : ℚ) ^ (21 : ℕ) ≤ (m : ℚ) from by
      push_neg
      calc (m : ℚ) < ((10 ^ 21 : ℕ) : ℚ) := by exact_mod_cast h2
        _ = 10 ^ (21 : ℕ) := by push_cast; ring),
    if_neg (show ¬ (m : ℚ) < 1 / 1000000 from by
      push_neg
      calc (1 : ℚ) / 1000000 ≤ 1 := by norm_num
        _ ≤ m := by exact_mod_cast h1),
    fixedDec_int m]
  exact string_empty_append _

theorem jsRatToString_int_neg (m : ℕ) (h1 : 1 ≤ m) (h2 : m < 10 ^ 21) :
    jsRatToString (-(m : ℚ)) = "-" ++ toString m := by
  have hpos : (0 : ℚ) < m := by exact_mod_cast (by omega : 0 < m)
  have hneg : -(m : ℚ) < 0 := by linarith
  simp only [jsRatToString]
  rw [if_neg (show ¬(-(m : ℚ) = 0) from by
      intro h
      exact absurd (neg_eq_zero.mp h) (ne_of_gt hpos)),
    mathAbs_of_neg _ hneg, neg_neg, if_pos hneg,
    if_neg (show ¬ (10 : ℚ) ^ (21 : ℕ) ≤ (m : ℚ) from by
      push_neg
      calc (m : ℚ) < ((10 ^ 21 : ℕ) : ℚ) := by exact_mod_cast h2
        _ = 10 ^ (21 : ℕ) := by push_cast; ring),
    if_neg (show ¬ (m : ℚ) < 1 / 1000000 from by
      push_neg
      calc (1 : ℚ) / 1000000 ≤ 1 := by norm_num
        _ ≤ m := by exact_mod_cast h1),
    fixedDec_int m]

theorem padTo4_data (m : ℕ) : (padTo4 m).data =
    List.replicate (4 - (toString m).length) '0' ++ (toString m).data := rfl

theorem padTo4_digits (m : ℕ) :
    ∀ c ∈ (padTo4 m).data, 48 ≤ c.toNat ∧ c.toNat ≤ 57 := by
  rw [padTo4_data]
  exact digits_of_zeros_append _ _ (toString_data_digits m)

theorem padTo4_ne_nil (m : ℕ) : (padTo4 m).data ≠ [] := by
  rw [padTo4_data]
  intro h
  have h2 := congrArg List.length h
  simp only [List.length_append, List.length_replicate, List.length_nil] at h2
  have h3 : (toString m).data.length = (toString m).length := rfl
  have := toString_nat_length_pos m
  omega

theorem padTo4_digitsToNat (m : ℕ) : digitsToNat (padTo4 m).data = m := by
  rw [padTo4_data, digitsToNat_zeros_append, digitsToNat_toString]

theorem padTo4_dtz_nil_iff (m : ℕ) :
    dropTrailingZeros (padTo4 m).data = [] ↔ m = 0 := by
  constructor
  · intro h
    by_contra hm
    exact (dropTrailingZeros_nonnil_of_ne_zero _ (by
      rw [padTo4_digitsToNat]
      exact hm)) h
  · intro h
    subst h
    decide

/-- The `|value| < 1` branch of `abbreviateNumberString` equals the spec-side
"4 significant digits with trailing zeros and a trailing decimal point
removed" rendering `specSigStrip ∘ toPrecision4`. -/
theorem abbrev_small (s : String) (q : ℚ)
    (hparse : jsStringToNumber s = JSNum.fin q) (h1 : mathAbs q < 1) :
    abbreviateNumberString s = specSigStrip (toPrecision4 q) := by
  simp only [abbreviateNumberString, hparse]
  rw [if_neg (show ¬(1000000 : ℚ) ≤ mathAbs q from by
      intro h
      linarith),
    if_neg (show ¬(1000 : ℚ) ≤ mathAbs q from by
      intro h
      linarith),
    if_pos h1]
  exact precision_roundtrip q h1


/-- The `1 ≤ |value| < 1000` branch of `abbreviateNumberString` equals the
spec-side "up to 4 fractional digits when non-integral, else an integer, with
trailing zero fractional digits stripped" rendering `specUpTo4`. -/
theorem abbrev_midrange (s : String) (q : ℚ)
    (hparse : jsStringToNumber s = JSNum.fin q)
    (hge : 1 ≤ mathAbs q) (hlt : mathAbs q < 1000) :
    abbreviateNumberString s = specUpTo4 q := by
  simp only [abbreviateNumberString, hparse]
  rw [if_neg (not_le.mpr (by linarith : mathAbs q < 1000000)),
    if_neg (not_le.mpr hlt), if_neg (not_lt.mpr hge)]
  simp only [specUpTo4]
  by_cases hden : q.den = 1
  · rw [if_pos hden]
    have hqz : ((q.num : ℤ) : ℚ) = q := by
      conv_rhs => rw [← Rat.num_div_den q]
      rw [hden]
      norm_num
    have htr : jsTrunc q = q.num := by
      rw [jsTrunc]
      by_cases h0q : 0 ≤ q
      · rw [if_pos h0q, ← hqz, Int.floor_intCast]
        exact (Rat.num_intCast q.num).symm
      · rw [if_neg h0q, ← hqz, Int.ceil_intCast]
        exact (Rat.num_intCast q.num).symm
    have hsub0 : mathAbs (q - ((jsTrunc q : ℤ) : ℚ)) = 0 := by
      rw [htr, hqz, sub_self]
      exact (mathAbs_eq_zero_iff 0).mpr rfl
    rw [if_neg (show ¬(0 < mathAbs (q - ((jsTrunc q : ℤ) : ℚ))) from by
      rw [hsub0]
      exact lt_irrefl 0)]
    by_cases hsgn : q < 0
    · rw [if_pos hsgn]
      have hms : mathAbs q = -q := mathAbs_of_neg q hsgn
      have hnam : ((q.num.natAbs : ℤ)) = -q.num := by
        have : q.num < 0 := by
          by_contra hn
          push_neg at hn
          have : (0 : ℚ) ≤ q := by
            rw [← hqz]
            exact_mod_cast hn
          linarith
        omega
      have hcast : ((q.num.natAbs : ℕ) : ℚ) = -q := by
        calc ((q.num.natAbs : ℕ) : ℚ) = (((q.num.natAbs : ℤ)) : ℚ) :=
              (Int.cast_natCast _).symm
          _ = ((-q.num : ℤ) : ℚ) := by rw [hnam]
          _ = -q := by
              push_cast
              rw [hqz]
      have hb1 : 1 ≤ q.num.natAbs := by
        have h1q : (1 : ℚ) ≤ ((q.num.natAbs : ℕ) : ℚ) := by
          rw [hcast, ← hms]
          exact hge
        exact_mod_cast h1q
      have hb2 : q.num.natAbs < 1000 := by
        have h2q : ((q.num.natAbs : ℕ) : ℚ) < 1000 := by
          rw [hcast, ← hms]
          exact hlt
        exact_mod_cast h2q
      have harg : q = -((q.num.natAbs : ℕ) : ℚ) := by
        rw [hcast, neg_neg]
      conv_lhs => rw [harg]
      rw [jsRatToString_int_neg _ hb1 (lt_of_lt_of_le hb2 (by norm_num))]
      have hnodot : '.' ∉ ("-" ++ toString q.num.natAbs).data := by
        rw [string_append_data]
        intro hmem
        rcases List.mem_append.mp hmem with hm | hm
        · exact absurd (List.mem_singleton.mp hm) (by decide)
        · exact absurd (toString_data_digits _ _ hm) (by decide)
      rw [stripDotZerosSuffix_no_dot _ hnodot,
        stripTrailingZerosAfterDot_no_dot _ hnodot]
    · rw [if_neg hsgn]
      have hms : mathAbs q = q := by
        rw [mathAbs, if_neg hsgn]
      have hnam : ((q.num.natAbs : ℤ)) = q.num := by
        have : 0 ≤ q.num := by
          by_contra hn
          push_neg at hn
          have : q < (0 : ℚ) := by
            rw [← hqz]
            exact_mod_cast hn
          exact hsgn this
        omega
      have hcast : ((q.num.natAbs : ℕ) : ℚ) = q := by
        calc ((q.num.natAbs : ℕ) : ℚ) = (((q.num.natAbs : ℤ)) : ℚ) :=
              (Int.cast_natCast _).symm
          _ = ((q.num : ℤ) : ℚ) := by rw [hnam]
          _ = q := hqz
      have hb1 : 1 ≤ q.num.natAbs := by
        have h1q : (1 : ℚ) ≤ ((q.num.natAbs : ℕ) : ℚ) := by
          rw [hcast, ← hms]
          exact hge
        exact_mod_cast h1q
      have hb2 : q.num.natAbs < 1000 := by
        have h2q : ((q.num.natAbs : ℕ) : ℚ) < 1000 := by
          rw [hcast, ← hms]
          exact hlt
        exact_mod_cast h2q
      conv_lhs => rw [hcast.symm]
      rw [jsRatToString_int_pos _ hb1 (lt_of_lt_of_le hb2 (by norm_num))]
      have hnodot : '.' ∉ (toString q.num.natAbs).data := by
        intro hmem
        exact absurd (toString_data_digits _ _ hmem) (by decide)
      rw [stripDotZerosSuffix_no_dot _ hnodot,
        stripTrailingZerosAfterDot_no_dot _ hnodot]
      exact (string_empty_append _).symm
  · rw [if_neg hden]
    have htrne : q - ((jsTrunc q : ℤ) : ℚ) ≠ 0 := by
      intro h
      have hq2 : q = ((jsTrunc q : ℤ) : ℚ) := by linarith
      have hd2 := congrArg Rat.den hq2
      rw [Rat.den_intCast] at hd2
      exact hden hd2
    rw [if_pos (mathAbs_pos _ htrne)]
    simp only [toFixed4]
    by_cases hsgn : q < 0
    · rw [if_pos hsgn]
      have hTF : ("-" ++ toString ((mathRound (mathAbs q * 10000)).toNat / 10000)
          ++ "." ++ padTo4 ((mathRound (mathAbs q * 10000)).toNat % 10000)) =
          String.mk (['-'] ++
            (toString ((mathRound (mathAbs q * 10000)).toNat / 10000)).data ++
            '.' :: (padTo4 ((mathRound (mathAbs q * 10000)).toNat % 10000)).data) := by
        apply string_data_ext
        simp only [string_append_data, List.append_assoc]
        rfl
      rw [hTF, strips_fixed ['-'] _ _
        (fun c hc => List.mem_singleton.mp hc)
        (toString_data_digits _) (padTo4_ne_nil _) (padTo4_digits _)]
      by_cases hm0 : (mathRound (mathAbs q * 10000)).toNat % 10000 = 0
      · rw [if_pos ((padTo4_dtz_nil_iff _).mpr hm0), if_pos hm0]
        apply string_data_ext
        simp only [string_append_data, List.append_assoc, List.append_nil]
      · rw [if_neg (fun h => hm0 ((padTo4_dtz_nil_iff _).mp h)), if_neg hm0]
        apply string_data_ext
        simp only [string_append_data, List.append_assoc]
        rfl
    · rw [if_neg hsgn]
      have hTF : ("" ++ toString ((mathRound (mathAbs q * 10000)).toNat / 10000)
          ++ "." ++ padTo4 ((mathRound (mathAbs q * 10000)).toNat % 10000)) =
          String.mk (([] : List Char) ++
            (toString ((mathRound (mathAbs q * 10000)).toNat / 10000)).data ++
            '.' :: (padTo4 ((mathRound (mathAbs q * 10000)).toNat % 10000)).data) := by
        apply string_data_ext
        simp only [string_append_data, List.append_assoc]
        rfl
      rw [hTF, strips_fixed [] _ _
        (fun c hc => absurd hc (List.not_mem_nil c))
        (toString_data_digits _) (padTo4_ne_nil _) (padTo4_digits _)]
      by_cases hm0 : (mathRound (mathAbs q * 10000)).toNat % 10000 = 0
      · rw [if_pos ((padTo4_dtz_nil_iff _).mpr hm0), if_pos hm0]
        apply string_data_ext
        simp only [string_append_data, List.append_assoc, List.append_nil]
      · rw [if_neg (fun h => hm0 ((padTo4_dtz_nil_iff _).mp h)), if_neg hm0]
        apply string_data_ext
        simp only [string_append_data, List.append_assoc]
        rfl

/-! ### Helper lemmas -/

theorem validPoolsOf_eq_filter (pools : List Pool) :
    validPoolsOf pools = pools.filter (fun p => isValidRecord p) := by
  induction pools with
  | nil => rfl
  | cons p ps ih =>
    simp only [validPoolsOf, List.filter_cons, isValidRecord, poolTypeInvalidB, ih]
    cases hhtml : containsHtmlOrMarkdown p.factory.type <;>
      cases hty : p.factory.type == "" <;> simp [hhtml, hty]

theorem transform_eq_filter_map (chainId : String) (pools : List Pool) :
    transformPoolsToTags chainId pools =
      (pools.filter (fun p => isValidRecord p)).map (formatPool chainId) := by
  rw [transformPoolsToTags, validPoolsOf_eq_filter]

theorem transform_append (chainId : String) (xs ys : List Pool) :
    transformPoolsToTags chainId (xs ++ ys) =
      transformPoolsToTags chainId xs ++ transformPoolsToTags chainId ys := by
  simp [transform_eq_filter_map, List.filter_append]

theorem dedupFilter_append (seen : List String) (xs ys : List Pool) :
    dedupFilter seen (xs ++ ys) =
      ((dedupFilter seen xs).1 ++ (dedupFilter (dedupFilter seen xs).2 ys).1,
        (dedupFilter (dedupFilter seen xs).2 ys).2) := by
  induction xs generalizing seen with
  | nil => simp [dedupFilter]
  | cons p ps ih =>
    simp only [List.cons_append, dedupFilter]
    by_cases h : p.id ∈ seen
    · rw [if_pos h, if_pos h]
      exact ih seen
    · rw [if_neg h, if_neg h]
      have e : ps.append ys = ps ++ ys := rfl
      rw [e, ih (p.id :: seen)]
      simp

theorem dedupFilter_ids_nodup (l : List Pool) :
    ∀ seen : List String,
      (((dedupFilter seen l).1.map Pool.id).Nodup ∧
        ∀ s ∈ seen, s ∉ (dedupFilter seen l).1.map Pool.id) := by
  induction l with
  | nil => intro seen; simp [dedupFilter]
  | cons p ps ih =>
    intro seen
    by_cases h : p.id ∈ seen
    · simp only [dedupFilter, if_pos h]
      exact ih seen
    · have ihp := ih (p.id :: seen)
      refine ⟨?_, ?_⟩
      · simp only [dedupFilter, if_neg h, List.map_cons, List.nodup_cons]
        exact ⟨ihp.2 p.id (by simp), ihp.1⟩
      · intro s hs
        simp only [dedupFilter, if_neg h, List.map_cons, List.mem_cons]
        push_neg
        constructor
        · intro hsp
          exact h (hsp ▸ hs)
        · exact ihp.2 s (by simp [hs])

theorem dedupFilter_sublist (l : List Pool) :
    ∀ seen : List String, (dedupFilter seen l).1.Sublist l := by
  induction l with
  | nil => intro seen; simp [dedupFilter]
  | cons p ps ih =>
    intro seen
    by_cases h : p.id ∈ seen
    · simp only [dedupFilter, if_pos h]
      exact (ih seen).cons p
    · simp only [dedupFilter, if_neg h]
      exact (ih (p.id :: seen)).cons₂ p

theorem fetchData_okOutcome (pools : List Pool) : fetchData (okOutcome pools) = .ok pools := rfl

theorem runLoop_step_err (c : String) (o : HttpOutcome) (rest : List HttpOutcome)
    (st : LoopState) (e : String) (hf : fetchData o = .error e) :
    runLoop c (o :: rest) st =
      some (.error ("Failed fetching data: Error: " ++ e), st.fetches + 1) := by
  simp only [runLoop, hf]

theorem runLoop_step_short (c : String) (o : HttpOutcome) (rest : List HttpOutcome)
    (st : LoopState) (pools : List Pool) (hf : fetchData o = .ok pools)
    (hlen : pools.length ≠ 1000) :
    runLoop c (o :: rest) st =
      some (.ok (st.allTags ++ transformPoolsToTags c (dedupFilter st.seen pools).1),
        st.fetches + 1) := by
  simp only [runLoop, hf]
  rw [if_neg hlen]

theorem runLoop_step_stall (c : String) (o : HttpOutcome) (rest : List HttpOutcome)
    (st : LoopState) (pools : List Pool) (hf : fetchData o = .ok pools)
    (hlen : pools.length = 1000)
    (hguard : lastIdOf pools = "" ∨ lastIdOf pools = st.lastId ∨
      lastIdOf pools = st.prevLastId) :
    runLoop c (o :: rest) st = some (.error stallMessage, st.fetches + 1) := by
  simp only [runLoop, hf]
  rw [if_pos hlen, if_pos hguard]

theorem runLoop_step_full (c : String) (o : HttpOutcome) (rest : List HttpOutcome)
    (st : LoopState) (pools : List Pool) (hf : fetchData o = .ok pools)
    (hlen : pools.length = 1000)
    (hguard : ¬ (lastIdOf pools = "" ∨ lastIdOf pools = st.lastId ∨
      lastIdOf pools = st.prevLastId)) :
    runLoop c (o :: rest) st =
      runLoop c rest
        { lastId := lastIdOf pools, prevLastId := st.lastId,
          seen := (dedupFilter st.seen pools).2,
          allTags := st.allTags ++ transformPoolsToTags c (dedupFilter st.seen pools).1,
          fetches := st.fetches + 1 } := by
  simp only [runLoop, hf]
  rw [if_pos hlen, if_neg hguard]

/-- Main loop refinement: under the fetcher contract (C1's scenario), the
loop succeeds, consumes every page, and its output is the transformation of
the globally deduplicated concatenation of all pages. -/
theorem runLoop_goodPages (c : String) (pages : List (List Pool)) :
    ∀ st : LoopState, GoodPages st.lastId pages → "" < st.lastId →
      st.prevLastId < st.lastId →
      runLoop c (pages.map okOutcome) st =
        some (.ok (st.allTags ++ transformPoolsToTags c (dedupFilter st.seen pages.flatten).1),
          st.fetches + pages.length) := by
  induction pages with
  | nil =>
    intro st hg _ _
    exact absurd hg (by simp [GoodPages])
  | cons p rest ih =>
    intro st hg h0 hp
    cases rest with
    | nil =>
      simp only [GoodPages] at hg
      rw [List.map_cons, List.map_nil,
        runLoop_step_short c _ _ _ p (fetchData_okOutcome p) (by omega)]
      simp
    | cons q rest2 =>
      simp only [GoodPages] at hg
      obtain ⟨hlen, hlt, hrest⟩ := hg
      have hlast0 : ("" : String) < lastIdOf p := lt_trans h0 hlt
      have hguard : ¬ (lastIdOf p = "" ∨ lastIdOf p = st.lastId ∨
          lastIdOf p = st.prevLastId) := by
        push_neg
        exact ⟨ne_of_gt hlast0, ne_of_gt hlt, ne_of_gt (lt_trans hp hlt)⟩
      rw [List.map_cons,
        runLoop_step_full c _ _ _ p (fetchData_okOutcome p) hlen hguard,
        ih { lastId := lastIdOf p, prevLastId := st.lastId,
             seen := (dedupFilter st.seen p).2,
             allTags := st.allTags ++ transformPoolsToTags c (dedupFilter st.seen p).1,
             fetches := st.fetches + 1 } hrest hlast0 hlt]
      simp only [List.flatten_cons, dedupFilter_append, transform_append, List.append_assoc,
        List.length_cons]
      have harith : st.fetches + 1 + (rest2.length + 1) = st.fetches + (rest2.length + 1 + 1) := by
        omega
      rw [harith]

/-- Every tag the loop ever emits carries an address of the form
`eip155:<chainId>:<some suffix>`. -/
theorem runLoop_address_shape (c : String) (oracle : List HttpOutcome) :
    ∀ (st : LoopState) (tags : List ContractTag) (n : ℕ),
      (∀ t ∈ st.allTags, ∃ s, t.contractAddress = "eip155:" ++ c ++ ":" ++ s) →
      runLoop c oracle st = some (.ok tags, n) →
      ∀ t ∈ tags, ∃ s, t.contractAddress = "eip155:" ++ c ++ ":" ++ s := by
  induction oracle with
  | nil =>
    intro st tags n _ hrun
    simp [runLoop] at hrun
  | cons o rest ih =>
    intro st tags n hinv hrun
    have hpage : ∀ pools, ∀ t ∈ transformPoolsToTags c pools,
        ∃ s, t.contractAddress = "eip155:" ++ c ++ ":" ++ s := by
      intro pools t ht
      rw [transform_eq_filter_map] at ht
      obtain ⟨p, _, hpt⟩ := List.mem_map.mp ht
      exact ⟨p.address, by rw [← hpt]; rfl⟩
    cases hf : fetchData o with
    | error e =>
      rw [runLoop_step_err c o rest st e hf] at hrun
      simp at hrun
    | ok pools =>
      by_cases hlen : pools.length = 1000
      · by_cases hguard : lastIdOf pools = "" ∨ lastIdOf pools = st.lastId ∨
            lastIdOf pools = st.prevLastId
        · rw [runLoop_step_stall c o rest st pools hf hlen hguard] at hrun
          simp at hrun
        · rw [runLoop_step_full c o rest st pools hf hlen hguard] at hrun
          refine ih _ tags n ?_ hrun
          intro t ht
          rcases List.mem_append.mp ht with h1 | h2
          · exact hinv t h1
          · exact hpage _ t h2
      · rw [runLoop_step_short c o rest st pools hf hlen] at hrun
        obtain ⟨h1, _⟩ := by simpa using hrun
        intro t ht
        rw [← h1] at ht
        rcases List.mem_append.mp ht with ha | hb
        · exact hinv t ha
        · exact hpage _ t hb

theorem string_length_eq_zero_iff (s : String) : s.length = 0 ↔ s = "" := by
  cases s with
  | mk l =>
    constructor
    · intro h
      cases l with
      | nil => rfl
      | cons c cs => simp [String.length] at h
    · intro h
      rw [h]
      rfl

theorem keyOk_of_trim_ne (apiKey : String) (hkey : jsTrim apiKey ≠ "") :
    ¬ (apiKey = "" ∨ (jsTrim apiKey).length = 0) := by
  push_neg
  refine ⟨?_, ?_⟩
  · intro h
    exact hkey (by rw [h]; rfl)
  · intro h
    exact hkey ((string_length_eq_zero_iff _).mp h)

unseal Rat.mul Rat.add Rat.sub Rat.inv in
/-- With a supported chain id and a non-blank key, `returnTags` runs the loop
with effective chain id `"42161"`. -/
theorem returnTags_accepted (chainId apiKey : String) (oracle : List HttpOutcome)
    (hchain : jsStringToNumber chainId = JSNum.fin 42161)
    (hkey : ¬ (apiKey = "" ∨ (jsTrim apiKey).length = 0)) :
    returnTags chainId apiKey oracle = runLoop "42161" oracle initialState := by
  simp only [returnTags, hchain]
  rw [if_neg (by decide : ¬ ((!(JSNum.fin 42161).isInteger) = true)),
    if_neg (by decide : ¬ (JSNum.fin (42161 : ℚ) ≠ JSNum.fin 42161)), if_neg hkey,
    (by decide : jsNumToString (JSNum.fin 42161) = "42161")]

theorem string_empty_lt (s : String) (h : s ≠ "") : ("" : String) < s := by
  cases s with
  | mk l =>
    cases l with
    | nil => exact absurd rfl h
    | cons c cs =>
      rw [String.lt_iff_toList_lt]
      exact Batteries.compareOfLessAndEq_eq_lt.mp rfl

/-! ### Claim theorems -/

/-- C1: for every supported chain id and valid access key, when the source
returns records across N pages of exactly 1000 followed by a final page of
fewer than 1000 records (each full page's last identifier advancing past the
cursor that requested it, per the fetcher contract), `returnTags` terminates
successfully, consuming exactly one fetch per page (stopping exactly at the
first short batch), and returns precisely the valid, first-occurrence
de-duplicated records of all pages, each transformed once, in the order
first encountered. -/
theorem c1_pagination_collects_all_pages (chainId apiKey : String)
    (pages : List (List Pool))
    (hchain : jsStringToNumber chainId = JSNum.fin 42161)
    (hkey : jsTrim apiKey ≠ "")
    (hpages : GoodPages initialState.lastId pages) :
    returnTags chainId apiKey (pages.map okOutcome) =
      some (.ok (((dedupFilter [] pages.flatten).1.filter
          (fun p => isValidRecord p)).map (formatPool "42161")), pages.length) ∧
    ((dedupFilter [] pages.flatten).1.map Pool.id).Nodup ∧
    (dedupFilter [] pages.flatten).1.Sublist pages.flatten := by
  refine ⟨?_, (dedupFilter_ids_nodup _ []).1, dedupFilter_sublist _ []⟩
  rw [returnTags_accepted chainId apiKey _ hchain (keyOk_of_trim_ne apiKey hkey),
    runLoop_goodPages "42161" pages initialState hpages
      (string_empty_lt _ (by decide)) (string_empty_lt _ (by decide))]
  simp [transform_eq_filter_map, initialState]

def c1Pool : Pool :=
  { id := "0x0b", address := "0xaaa", factory := { type := "LBP", version := some 1 } }

unseal Rat.mul Rat.add Rat.sub Rat.inv in
theorem c1_pagination_collects_all_pages_witness :
    (returnTags "42161" "key" ([[c1Pool]].map okOutcome) =
      some (.ok (((dedupFilter [] [[c1Pool]].flatten).1.filter
          (fun p => isValidRecord p)).map (formatPool "42161")), [[c1Pool]].length) ∧
    ((dedupFilter [] [[c1Pool]].flatten).1.map Pool.id).Nodup ∧
    (dedupFilter [] [[c1Pool]].flatten).1.Sublist [[c1Pool]].flatten) :=
  c1_pagination_collects_all_pages "42161" "key" [[c1Pool]] (by decide) (by decide)
    (by simp [GoodPages])

def stallPool : Pool :=
  { id := "0x0000000000000000000000000000000000000000", address := "0xabc",
    factory := { type := "Stable", version := some 1 } }

unseal Rat.mul Rat.add Rat.sub Rat.inv in
/-- C3, counterexample: a non-empty batch of fewer than 1000 records whose
last identifier equals the request cursor (the initial cursor here) does NOT
abort the run — it terminates successfully with the batch's tag, refuting
"regardless of the batch's size". -/
theorem c3_short_batch_stall_not_detected :
    stallPool.id = initialState.lastId ∧
    returnTags "42161" "key" [okOutcome [stallPool]] =
      some (.ok [formatPool "42161" stallPool], 1) := by
  constructor
  · rfl
  · decide

/-- C3, amended: when a fetched batch has exactly 1000 records and its last
record's identifier equals the cursor used to request it, the run fails with
the pagination-stall error (and yields no result list); batches of fewer
than 1000 records are not subject to the stall check. -/
theorem c3_stall_on_full_page (c : String) (o : HttpOutcome)
    (rest : List HttpOutcome) (st : LoopState) (pools : List Pool)
    (hf : fetchData o = .ok pools) (hlen : pools.length = 1000)
    (hstall : lastIdOf pools = st.lastId) :
    runLoop c (o :: rest) st = some (.error stallMessage, st.fetches + 1) :=
  runLoop_step_stall c o rest st pools hf hlen (Or.inr (Or.inl hstall))

def c3State : LoopState :=
  { lastId := "0xaa", prevLastId := "", seen := [], allTags := [], fetches := 0 }

def c3Pool : Pool :=
  { id := "0xaa", address := "0xbbb", factory := { type := "Stable", version := some 1 } }

set_option maxRecDepth 10000 in
theorem c3_stall_on_full_page_witness :
    runLoop "42161" [okOutcome (List.replicate 1000 c3Pool)] c3State =
      some (.error stallMessage, 1) :=
  c3_stall_on_full_page "42161" (okOutcome (List.replicate 1000 c3Pool)) [] c3State
    (List.replicate 1000 c3Pool) (fetchData_okOutcome _) (by simp) (by decide)

/-- C4: whenever a batch of exactly 1000 records arrives, the run aborts with
the pagination-stall failure exactly when the last identifier of the
just-fetched pre-deduplication batch is empty, equal to the current cursor,
or equal to the cursor retained from the iteration before (the oscillation
guard); otherwise the loop continues with the cursor set to that identifier
(which differs from the current cursor), the previous cursor shifted, and the
page's tags appended. -/
theorem c4_cursor_advance_and_guard (c : String) (st : LoopState)
    (o : HttpOutcome) (rest : List HttpOutcome) (pools : List Pool)
    (hf : fetchData o = .ok pools) (hlen : pools.length = 1000) :
    ((lastIdOf pools = "" ∨ lastIdOf pools = st.lastId ∨
        lastIdOf pools = st.prevLastId) →
      runLoop c (o :: rest) st = some (.error stallMessage, st.fetches + 1)) ∧
    (¬ (lastIdOf pools = "" ∨ lastIdOf pools = st.lastId ∨
        lastIdOf pools = st.prevLastId) →
      lastIdOf pools ≠ st.lastId ∧
      runLoop c (o :: rest) st =
        runLoop c rest
          { lastId := lastIdOf pools, prevLastId := st.lastId,
            seen := (dedupFilter st.seen pools).2,
            allTags := st.allTags ++ transformPoolsToTags c (dedupFilter st.seen pools).1,
            fetches := st.fetches + 1 }) :=
  ⟨fun h => runLoop_step_stall c o rest st pools hf hlen h,
   fun h => ⟨fun he => h (Or.inr (Or.inl he)),
     runLoop_step_full c o rest st pools hf hlen h⟩⟩

def c4Pool : Pool :=
  { id := "0x1234", address := "0xccc", factory := { type := "GyroE", version := some 2 } }

set_option maxRecDepth 10000 in
theorem c4_cursor_advance_and_guard_witness :
    lastIdOf (List.replicate 1000 c4Pool) ≠ initialState.lastId ∧
    runLoop "42161" (okOutcome (List.replicate 1000 c4Pool) :: []) initialState =
      runLoop "42161" []
        { lastId := lastIdOf (List.replicate 1000 c4Pool),
          prevLastId := initialState.lastId,
          seen := (dedupFilter initialState.seen (List.replicate 1000 c4Pool)).2,
          allTags := initialState.allTags ++
            transformPoolsToTags "42161"
              (dedupFilter initialState.seen (List.replicate 1000 c4Pool)).1,
          fetches := initialState.fetches + 1 } :=
  (c4_cursor_advance_and_guard "42161" initialState
      (okOutcome (List.replicate 1000 c4Pool)) [] (List.replicate 1000 c4Pool)
      (fetchData_okOutcome _) (by simp)).2 (by decide)

def c2Pool : Pool :=
  { id := "0x01", address := "0xabc", factory := { type := "Stable", version := some 1 },
    stableParams := some { amp := "<b>1</b>" } }

unseal Rat.mul Rat.add Rat.sub Rat.inv in
/-- C2: evaluation at the failing input.  A valid record whose `amp` parameter
is the non-numeric string `<b>1</b>` is formatted, and `abbreviateNumberString`
returns the input unchanged for non-finite parses, so the produced Public Note
contains HTML markup — the display name stays clean, but the note does not,
contradicting the claimed invariant. -/
theorem c2_note_html_leak :
    (transformPoolsToTags "42161" [c2Pool]).map
        (fun t => (containsHtmlOrMarkdown t.publicNote,
          containsHtmlOrMarkdown t.publicNameTag)) = [(true, false)] ∧
    (transformPoolsToTags "42161" [c2Pool]).map ContractTag.publicNote =
      ["A Balancer v3 \x27Stable\x27 pool. Params: amp=<b>1</b>."] := by
  constructor
  · decide
  · decide

theorem returnTags_unsupported (chainId apiKey : String) (oracle : List HttpOutcome)
    (h : ¬ ((jsStringToNumber chainId).isInteger = true ∧
      jsStringToNumber chainId = JSNum.fin 42161)) :
    returnTags chainId apiKey oracle =
      some (.error ("Unsupported Chain ID: " ++ chainId ++ "."), 0) := by
  simp only [returnTags]
  by_cases hi : (jsStringToNumber chainId).isInteger = true
  · have hne : jsStringToNumber chainId ≠ JSNum.fin 42161 := by
      intro he
      exact h ⟨hi, he⟩
    rw [if_neg (by simp [hi]), if_pos hne]
  · rw [if_pos (by simp [Bool.eq_false_iff.mpr hi])]

theorem returnTags_blankKey (chainId apiKey : String) (oracle : List HttpOutcome)
    (hchain : jsStringToNumber chainId = JSNum.fin 42161)
    (hk : apiKey = "" ∨ (jsTrim apiKey).length = 0) :
    returnTags chainId apiKey oracle =
      some (.error "Missing API key. A The Graph gateway API key is required.", 0) := by
  simp only [returnTags]
  rw [if_neg (by simp [hchain]; rfl), if_neg (by simp [hchain]), if_pos hk]

/-- C5: an unsupported chain id (one whose JavaScript numeric parse is not the
integer 42161) fails with the descriptive chain validation error, and a
missing/blank key on a supported chain fails with the key validation error —
in both cases before any network call (zero fetches issued). -/
theorem c5_validation_no_fetch (chainId apiKey : String) (oracle : List HttpOutcome) :
    (¬ ((jsStringToNumber chainId).isInteger = true ∧
        jsStringToNumber chainId = JSNum.fin 42161) →
      returnTags chainId apiKey oracle =
        some (.error ("Unsupported Chain ID: " ++ chainId ++ "."), 0)) ∧
    ((apiKey = "" ∨ (jsTrim apiKey).length = 0) →
      jsStringToNumber chainId = JSNum.fin 42161 →
      returnTags chainId apiKey oracle =
        some (.error "Missing API key. A The Graph gateway API key is required.", 0)) :=
  ⟨fun h => returnTags_unsupported chainId apiKey oracle h,
   fun hk hchain => returnTags_blankKey chainId apiKey oracle hchain hk⟩

unseal Rat.mul Rat.add Rat.sub Rat.inv in
theorem c5_validation_no_fetch_witness :
    returnTags "1" "key" [] = some (.error "Unsupported Chain ID: 1.", 0) ∧
    returnTags "42161" " " [] =
      some (.error "Missing API key. A The Graph gateway API key is required.", 0) :=
  ⟨(c5_validation_no_fetch "1" "key" []).1 (by decide),
   (c5_validation_no_fetch "42161" " " []).2 (by decide) (by decide)⟩

/-- C6: a record is skipped exactly when its kind descriptor is empty or
contains HTML-like markup; every other record of the batch is formatted, in
order, and nothing else is dropped. -/
theorem c6_skip_policy (chainId : String) (pools : List Pool) :
    transformPoolsToTags chainId pools =
      (pools.filter (fun p =>
        !(p.factory.type == "" || containsHtmlOrMarkdown p.factory.type))).map
        (formatPool chainId) :=
  transform_eq_filter_map chainId pools

/-- C7: the display name is `<spaced kind> Pool v<version>` when the version
is a well-formed integer and `<spaced kind> Pool` otherwise, truncated to at
most 50 characters with the three-character ellipsis marker counted in; a
60-character base name yields exactly 50 characters ending in the marker. -/
theorem c7_display_name (chainId : String) (pool : Pool) :
    (∀ v : ℤ, pool.factory.version = some v →
      (formatPool chainId pool).publicNameTag =
        truncateString (camelCaseToSpaced pool.factory.type ++ " Pool" ++
          (" v" ++ jsRatToString (v : ℚ))) 50) ∧
    (pool.factory.version = none →
      (formatPool chainId pool).publicNameTag =
        truncateString (camelCaseToSpaced pool.factory.type ++ " Pool") 50) ∧
    (∀ s : String, (truncateString s 50).length ≤ 50) ∧
    (formatPool chainId pool).publicNameTag.length ≤ 50 ∧
    (∀ s : String, s.length = 60 →
      (truncateString s 50).length = 50 ∧
      (truncateString s 50).data.drop 47 = ['.', '.', '.']) := by
  have htrunc : ∀ s : String, (truncateString s 50).length ≤ 50 := by
    intro s
    rw [truncateString]
    by_cases h : 50 < s.length
    · rw [if_pos h]
      have hlen : (String.mk (s.data.take (50 - 3)) ++ "...").length =
          (s.data.take 47).length + 3 := String.length_append _ _
      rw [hlen, List.length_take]
      omega
    · rw [if_neg h]
      omega
  have hsixty : ∀ s : String, s.length = 60 →
      (truncateString s 50).length = 50 ∧
      (truncateString s 50).data.drop 47 = ['.', '.', '.'] := by
    intro s h60
    have h : 50 < s.length := by omega
    have hdata : (truncateString s 50).data = s.data.take 47 ++ ['.', '.', '.'] := by
      rw [truncateString, if_pos h]
      rfl
    have htk : (s.data.take 47).length = 47 := by
      rw [List.length_take]
      have : s.data.length = 60 := h60
      omega
    constructor
    · show (truncateString s 50).data.length = 50
      rw [hdata, List.length_append, htk]
      rfl
    · rw [hdata]
      have hdl := List.drop_left (s.data.take 47) ['.', '.', '.']
      rw [htk] at hdl
      exact hdl
  refine ⟨?_, ?_, htrunc, htrunc _, hsixty⟩
  · intro v hv
    simp [formatPool, hv]
  · intro hv
    simp [formatPool, hv]

def c7Pool : Pool :=
  { id := "0x07", address := "0x777",
    factory := { type := "aaaaaaaaaaaaaaaaaaaaaaaaaaaaaaaaaaaaaaaaaaaaaaaaaaaa",
                 version := some 1 } }

def c7Name : String :=
  camelCaseToSpaced c7Pool.factory.type ++ " Pool" ++ (" v" ++ jsRatToString ((1 : ℤ) : ℚ))

unseal Rat.mul Rat.add Rat.sub Rat.inv in
theorem c7_display_name_witness :
    ((formatPool "42161" c7Pool).publicNameTag = truncateString c7Name 50) ∧
    (truncateString c7Name 50).length = 50 ∧
    (truncateString c7Name 50).data.drop 47 = ['.', '.', '.'] :=
  ⟨(c7_display_name "42161" c7Pool).1 1 rfl,
   (c7_display_name "42161" c7Pool).2.2.2.2 c7Name (by decide)⟩

theorem mathAbs_eq_abs (q : ℚ) : mathAbs q = |q| := by
  rw [mathAbs]
  rcases lt_or_ge q 0 with h | h
  · rw [if_pos h, abs_of_neg h]
  · rw [if_neg (not_lt.mpr h), abs_of_nonneg h]

unseal Rat.mul Rat.add Rat.sub Rat.inv in
/-- C8: the abbreviation rule on every numeric string — non-finite parses are
returned unchanged; `|value| ≥ 10^6` renders as rounded millions with suffix
`M`; `10^3 ≤ |value| < 10^6` as rounded thousands with suffix `k`;
`|value| < 1` as the 4-significant-digit rendering with trailing zeros and a
trailing decimal point removed (`specSigStrip` of `toPrecision4`);
`1 ≤ |value| < 1000` as an integer when integral, else with up to 4
fractional digits and trailing zero fractional digits stripped (`specUpTo4`);
and the five specified vectors hold. -/
theorem c8_abbreviation_rule :
    (∀ (s : String) (q : ℚ), jsStringToNumber s = JSNum.fin q → 1000000 ≤ |q| →
      abbreviateNumberString s =
        jsRatToString ((mathRound (q / 1000000) : ℤ) : ℚ) ++ "M") ∧
    (∀ (s : String) (q : ℚ), jsStringToNumber s = JSNum.fin q → |q| < 1000000 →
      1000 ≤ |q| →
      abbreviateNumberString s =
        jsRatToString ((mathRound (q / 1000) : ℤ) : ℚ) ++ "k") ∧
    (∀ s : String, jsStringToNumber s = JSNum.nan ∨
        jsStringToNumber s = JSNum.posInf ∨ jsStringToNumber s = JSNum.negInf →
      abbreviateNumberString s = s) ∧
    (∀ (s : String) (q : ℚ), jsStringToNumber s = JSNum.fin q → |q| < 1 →
      abbreviateNumberString s = specSigStrip (toPrecision4 q)) ∧
    (∀ (s : String) (q : ℚ), jsStringToNumber s = JSNum.fin q → 1 ≤ |q| →
      |q| < 1000 →
      abbreviateNumberString s = specUpTo4 q) ∧
    abbreviateNumberString "1234567" = "1M" ∧
    abbreviateNumberString "2500" = "3k" ∧
    abbreviateNumberString "0.123456" = "0.1235" ∧
    abbreviateNumberString "42.5000" = "42.5" ∧
    abbreviateNumberString "100" = "100" := by
  refine ⟨?_, ?_, ?_, ?_, ?_, by decide, by decide, by decide, by decide,
    by decide⟩
  · intro s q hparse hge
    simp only [abbreviateNumberString, hparse]
    rw [mathAbs_eq_abs, if_pos hge]
  · intro s q hparse hlt hge
    simp only [abbreviateNumberString, hparse]
    rw [mathAbs_eq_abs, if_neg (not_le.mpr hlt), if_pos hge]
  · intro s h
    rcases h with h | h | h <;> simp [abbreviateNumberString, h]
  · intro s q hparse h
    exact abbrev_small s q hparse (by rw [mathAbs_eq_abs]; exact h)
  · intro s q hparse h1 h2
    exact abbrev_midrange s q hparse (by rw [mathAbs_eq_abs]; exact h1)
      (by rw [mathAbs_eq_abs]; exact h2)

unseal Rat.mul Rat.add Rat.sub Rat.inv in
theorem c8_abbreviation_rule_witness :
    (jsStringToNumber "5000000" = JSNum.fin 5000000 ∧
      (1000000 : ℚ) ≤ |(5000000 : ℚ)| ∧
      abbreviateNumberString "5000000" =
        jsRatToString ((mathRound ((5000000 : ℚ) / 1000000) : ℤ) : ℚ) ++ "M") ∧
    (jsStringToNumber "0.5" = JSNum.fin (1 / 2) ∧ |(1 / 2 : ℚ)| < 1 ∧
      abbreviateNumberString "0.5" = specSigStrip (toPrecision4 (1 / 2))) ∧
    (jsStringToNumber "42.5" = JSNum.fin (85 / 2) ∧ (1 : ℚ) ≤ |(85 / 2 : ℚ)| ∧
      |(85 / 2 : ℚ)| < 1000 ∧
      abbreviateNumberString "42.5" = specUpTo4 (85 / 2)) := by
  have habs1 : |(1 / 2 : ℚ)| = 1 / 2 := abs_of_pos (by norm_num)
  have habs2 : |(85 / 2 : ℚ)| = 85 / 2 := abs_of_pos (by norm_num)
  refine ⟨⟨by decide, by norm_num,
    c8_abbreviation_rule.1 "5000000" 5000000 (by decide) (by norm_num)⟩,
   ⟨by decide, by rw [habs1]; norm_num,
    c8_abbreviation_rule.2.2.2.1 "0.5" (1 / 2) (by decide)
      (by rw [habs1]; norm_num)⟩,
   ⟨by decide, by rw [habs2]; norm_num, by rw [habs2]; norm_num,
    c8_abbreviation_rule.2.2.2.2.1 "42.5" (85 / 2) (by decide)
      (by rw [habs2]; norm_num) (by rw [habs2]; norm_num)⟩⟩

/-- C9: any failing fetch iteration aborts the whole run at once — the loop
returns the error wrapped with the `Failed fetching data:` context and no tag
list, whatever tags the state had accumulated.  This covers a failing fetch
outcome (transport failure, non-success status, upstream error list, absent
data container — all of which make `fetchData` fail, as the later conjuncts
enumerate) and equally a pagination stall, which arises on a *successful*
full-page fetch whose last identifier fails the progress guard. -/
theorem c9_fetch_error_aborts (c : String) (o : HttpOutcome)
    (rest : List HttpOutcome) (st : LoopState) (e : String)
    (hf : fetchData o = .error e) :
    runLoop c (o :: rest) st =
      some (.error ("Failed fetching data: Error: " ++ e), st.fetches + 1) ∧
    (∀ (o2 : HttpOutcome) (rest2 : List HttpOutcome) (st2 : LoopState)
        (pools : List Pool),
      fetchData o2 = .ok pools → pools.length = 1000 →
      (lastIdOf pools = "" ∨ lastIdOf pools = st2.lastId ∨
        lastIdOf pools = st2.prevLastId) →
      runLoop c (o2 :: rest2) st2 = some (.error stallMessage, st2.fetches + 1)) ∧
    fetchData HttpOutcome.timeout =
      .error "Request timed out while querying the subgraph." ∧
    (∀ (status : ℕ) (body : GraphQLResponseShape),
      fetchData (.response false status body) =
        .error ("HTTP error: " ++ toString status)) ∧
    (∀ (status : ℕ) (d : Option GraphQLDataShape) (es : List String),
      fetchData (.response true status { data := d, errors := some es }) =
        .error "GraphQL errors occurred: see logs for details.") ∧
    (∀ status : ℕ,
      fetchData (.response true status { data := none, errors := none }) =
        .error "No pools data found.") :=
  ⟨runLoop_step_err c o rest st e hf,
   fun o2 rest2 st2 pools hf2 hlen hguard =>
     runLoop_step_stall c o2 rest2 st2 pools hf2 hlen hguard,
   rfl, fun _ _ => rfl, fun _ _ _ => rfl, fun _ => rfl⟩

def c9Pool : Pool :=
  { id := "0x0000000000000000000000000000000000000000", address := "0x999",
    factory := { type := "Weighted", version := some 1 } }

set_option maxRecDepth 10000 in
theorem c9_fetch_error_aborts_witness :
    runLoop "42161" [HttpOutcome.timeout] initialState =
      some (.error
        "Failed fetching data: Error: Request timed out while querying the subgraph.", 1) ∧
    runLoop "42161" [okOutcome (List.replicate 1000 c9Pool)] initialState =
      some (.error stallMessage, 1) :=
  ⟨(c9_fetch_error_aborts "42161" HttpOutcome.timeout [] initialState
      "Request timed out while querying the subgraph." rfl).1,
   (c9_fetch_error_aborts "42161" HttpOutcome.timeout [] initialState
      "Request timed out while querying the subgraph." rfl).2.1
     (okOutcome (List.replicate 1000 c9Pool)) [] initialState
     (List.replicate 1000 c9Pool) (fetchData_okOutcome _) (by simp)
     (Or.inr (Or.inl (by decide)))⟩

unseal Rat.mul Rat.add Rat.sub Rat.inv in
/-- C10: `returnTags` accepts exactly the chain id strings whose JavaScript
numeric parse is the integer 42161 — including spellings `0xA4B1`, spaced
`42161`, and `42161.0` — and every accepted spelling runs identically to the
canonical `"42161"`, so every produced Contract Address uses the normalised
`eip155:42161:<address>` form. -/
theorem c10_chain_id_normalisation :
    (∀ chainId : String,
      ((jsStringToNumber chainId).isInteger = true ∧
        jsStringToNumber chainId = JSNum.fin 42161) ↔
      jsStringToNumber chainId = JSNum.fin 42161) ∧
    jsStringToNumber "0xA4B1" = JSNum.fin 42161 ∧
    jsStringToNumber " 42161 " = JSNum.fin 42161 ∧
    jsStringToNumber "42161.0" = JSNum.fin 42161 ∧
    (∀ (chainId apiKey : String) (oracle : List HttpOutcome),
      jsStringToNumber chainId = JSNum.fin 42161 →
      returnTags chainId apiKey oracle = returnTags "42161" apiKey oracle) ∧
    (∀ (chainId apiKey : String) (oracle : List HttpOutcome)
        (tags : List ContractTag) (n : ℕ),
      jsStringToNumber chainId = JSNum.fin 42161 →
      returnTags chainId apiKey oracle = some (.ok tags, n) →
      ∀ t ∈ tags, ∃ s, t.contractAddress = "eip155:42161:" ++ s) := by
  have hcanon : jsStringToNumber "42161" = JSNum.fin 42161 := by decide
  refine ⟨?_, by decide, by decide, by decide, ?_, ?_⟩
  · intro chainId
    constructor
    · exact fun h => h.2
    · intro h
      exact ⟨by rw [h]; rfl, h⟩
  · intro chainId apiKey oracle h
    by_cases hk : apiKey = "" ∨ (jsTrim apiKey).length = 0
    · rw [returnTags_blankKey chainId apiKey oracle h hk,
        returnTags_blankKey "42161" apiKey oracle hcanon hk]
    · rw [returnTags_accepted chainId apiKey oracle h hk,
        returnTags_accepted "42161" apiKey oracle hcanon hk]
  · intro chainId apiKey oracle tags n h hrun
    by_cases hk : apiKey = "" ∨ (jsTrim apiKey).length = 0
    · rw [returnTags_blankKey chainId apiKey oracle h hk] at hrun
      simp at hrun
    · rw [returnTags_accepted chainId apiKey oracle h hk] at hrun
      intro t ht
      obtain ⟨s, hs⟩ := runLoop_address_shape "42161" oracle initialState tags n
        (by intro u hu; simp [initialState] at hu) hrun t ht
      exact ⟨s, by rw [hs]; rfl⟩

unseal Rat.mul Rat.add Rat.sub Rat.inv in
theorem c10_chain_id_normalisation_witness :
    jsStringToNumber "0xA4B1" = JSNum.fin 42161 ∧
    returnTags "0xA4B1" "key" [] = returnTags "42161" "key" [] :=
  ⟨c10_chain_id_normalisation.2.1,
   c10_chain_id_normalisation.2.2.2.2.1 "0xA4B1" "key" [] (by decide)⟩
